import Mathlib

/-!
Verification development for the Bounty-Tracker GitHub ingestion pipeline
(app/services/github_service.py and the models it writes).

The pipeline is embedded shallowly:

* `extract_bounty_amount` / `determine_bounty_source` are modelled as pure
  functions on strings.  The five regular-expression patterns of
  `GitHubService.bounty_patterns` are implemented as dedicated scanners with
  Python `re.findall` semantics (leftmost, non-overlapping, greedy; each
  pattern here is deterministic, no backtracking is observable).
* Python `float` arithmetic is modelled exactly: decimal strings are parsed
  into rationals and then quantized to the nearest IEEE-754 binary64 value
  (round to nearest, ties to even) by `quantize`; the multiplication by 100
  re-quantizes the exact product, and `int(...)` is rational truncation.
  Overflow to infinity and subnormals are not modelled (they are unreachable
  for the inputs considered by the claims).
* The database session is modelled as an explicit record of committed rows.
  The application sessions are created with `autoflush=False`
  (app/db/database.py), so queries issued inside one request cycle see only
  committed rows; pending `db.add` objects become visible at `db.commit()`,
  and a commit that would violate a unique constraint rolls back, leaving the
  committed state unchanged.
* Network traffic is an explicit oracle: a list of `ReqOutcome` values that
  `make_request` consumes one per call, updating the rate-limit counter from
  the response header exactly as the source does.
* Python exceptions that escape the service functions are modelled with
  `Except PErr`; exceptions that the source catches locally are absorbed
  into the normal return value, as in the source.
-/

namespace BT

/-- Lowercase an ASCII character, as Python `str.lower` does on ASCII text. -/
def lowerCh (c : Char) : Char :=
  if 'A' ≤ c ∧ c ≤ 'Z' then Char.ofNat (c.toNat + 32) else c

/-- Lowercase a character list (`text.lower()` restricted to ASCII). -/
def lowerList (l : List Char) : List Char := l.map lowerCh

/-- Character class `[0-9,]` used by the amount-capturing groups. -/
def isAmtCh (c : Char) : Bool := c.isDigit || c == ','

/-- Python regex `\s` on ASCII text. -/
def isSpaceCh (c : Char) : Bool :=
  c == ' ' || c == '\t' || c == '\n' || c == '\r' || c == '\x0b' || c == '\x0c'

/-- Match a literal character sequence at the head of the input, returning
the remainder on success (used for the literal parts of the patterns). -/
def matchLit : List Char → List Char → Option (List Char)
  | [], cs => some cs
  | _ :: _, [] => none
  | l :: ls, c :: cs => if c = l then matchLit ls cs else none

/-- Scanner body for pattern 1, `\$([0-9,]+(?:\.[0-9]{2})?)`: after a `$`,
take the maximal run of `[0-9,]` (at least one), then optionally a dot
followed by exactly two digits.  Returns the captured group and the rest. -/
def scanDollarAmt (cs : List Char) : Option (List Char × List Char) :=
  let d := cs.takeWhile isAmtCh
  if d.isEmpty then none
  else
    let rest := cs.dropWhile isAmtCh
    match rest with
    | '.' :: d1 :: d2 :: r2 =>
      if d1.isDigit && d2.isDigit then some (d ++ ['.', d1, d2], r2)
      else some (d, rest)
    | _ => some (d, rest)

/-- The `re.findall` loop for pattern 1.  The fuel argument only bounds the
recursion; `length + 1` fuel always suffices since every step consumes at
least one character. -/
def findallDollar : ℕ → List Char → List (List Char)
  | 0, _ => []
  | _ + 1, [] => []
  | f + 1, c :: rest =>
    if c = '$' then
      match scanDollarAmt rest with
      | some (g, rest') => g :: findallDollar f rest'
      | none => findallDollar f rest
    else findallDollar f rest

/-- Scanner body for pattern 2, `(\d+)\s*(?:USD|dollars?)` (IGNORECASE over
already lowercased text): a maximal digit run, optional whitespace, then
`usd`, or `dollar` with an optional trailing `s`. -/
def scanUsd (c : Char) (rest : List Char) : Option (List Char × List Char) :=
  let d := c :: rest.takeWhile Char.isDigit
  let afterD := rest.dropWhile Char.isDigit
  let afterWs := afterD.dropWhile isSpaceCh
  match matchLit ['u', 's', 'd'] afterWs with
  | some r => some (d, r)
  | none =>
    match matchLit ['d', 'o', 'l', 'l', 'a', 'r'] afterWs with
    | some r =>
      match r with
      | 's' :: r' => some (d, r')
      | _ => some (d, r)
    | none => none

/-- The `re.findall` loop for pattern 2. -/
def findallUsd : ℕ → List Char → List (List Char)
  | 0, _ => []
  | _ + 1, [] => []
  | f + 1, c :: rest =>
    if c.isDigit then
      match scanUsd c rest with
      | some (g, rest') => g :: findallUsd f rest'
      | none => findallUsd f rest
    else findallUsd f rest

/-- Scanner body for patterns 3-5, `kw:?\s*\$?([0-9,]+)` for keyword `kw`
(`bounty`, `reward`, `prize`): the keyword, an optional colon, optional
whitespace, an optional `$`, then a maximal nonempty run of `[0-9,]`. -/
def scanKw (kw : List Char) (cs : List Char) : Option (List Char × List Char) :=
  match matchLit kw cs with
  | none => none
  | some r1 =>
    let r2 := match r1 with
      | ':' :: t => t
      | _ => r1
    let r3 := r2.dropWhile isSpaceCh
    let r4 := match r3 with
      | '$' :: t => t
      | _ => r3
    let d := r4.takeWhile isAmtCh
    if d.isEmpty then none else some (d, r4.dropWhile isAmtCh)

/-- The `re.findall` loop for patterns 3-5. -/
def findallKw (kw : List Char) : ℕ → List Char → List (List Char)
  | 0, _ => []
  | _ + 1, [] => []
  | f + 1, c :: rest =>
    match scanKw kw (c :: rest) with
    | some (g, rest') => g :: findallKw kw f rest'
    | none => findallKw kw f rest

/-- All matches of the five ordered bounty patterns over a lowercased text,
in source order (pattern by pattern, left to right within a pattern). -/
def allMatches (t : List Char) : List (List Char) :=
  findallDollar (t.length + 1) t ++ findallUsd (t.length + 1) t ++
    findallKw ['b', 'o', 'u', 'n', 't', 'y'] (t.length + 1) t ++
    findallKw ['r', 'e', 'w', 'a', 'r', 'd'] (t.length + 1) t ++
    findallKw ['p', 'r', 'i', 'z', 'e'] (t.length + 1) t

/-- Numeric value of a digit list (most significant first). -/
def natOfDigits (l : List Char) : ℕ :=
  l.foldl (fun a c => 10 * a + (c.toNat - '0'.toNat)) 0

/-- Cleanup step of the source: `match.replace(",", "").replace(" ", "")`. -/
def cleanAmt (l : List Char) : List Char :=
  l.filter (fun c => !(c == ',' || c == ' '))

/-- Exact (unnormalized) rational number: numerator over a denominator that
is kept positive by construction throughout this development. -/
structure Q where
  n : ℤ
  d : ℕ
deriving Repr, DecidableEq

/-- Exact rational multiplication. -/
def qmul (a b : Q) : Q := ⟨a.n * b.n, a.d * b.d⟩

/-- Comparison `a ≤ b` by cross multiplication (denominators positive). -/
def qle (a b : Q) : Bool := decide (a.n * (b.d : ℤ) ≤ b.n * (a.d : ℤ))

/-- Comparison `a < b` by cross multiplication (denominators positive). -/
def qlt (a b : Q) : Bool := decide (a.n * (b.d : ℤ) < b.n * (a.d : ℤ))

/-- Floor of an exact rational (denominator positive). -/
def qfloor (q : Q) : ℤ := Int.fdiv q.n (q.d : ℤ)

/-- Round an exact rational to the nearest integer, ties to even (the
rounding used both by IEEE-754 and by Python `round`). -/
def roundEven (q : Q) : ℤ :=
  let f := qfloor q
  let r2 := 2 * (q.n - f * (q.d : ℤ))
  if r2 < (q.d : ℤ) then f
  else if (q.d : ℤ) < r2 then f + 1
  else if f % 2 = 0 then f else f + 1

/-- Exact value of a decimal literal as accepted by Python `float` on the
strings the scanners can produce (digits with at most one dot); `none` is a
`ValueError`.  The empty string (an all-comma match) fails. -/
def parseDec (cs : List Char) : Option Q :=
  let ip := cs.takeWhile (fun c => c ≠ '.')
  match cs.dropWhile (fun c => c ≠ '.') with
  | [] =>
    if ip.isEmpty || !ip.all Char.isDigit then none
    else some ⟨(natOfDigits ip : ℤ), 1⟩
  | _ :: fp =>
    if fp.any (fun c => c = '.') then none
    else if !ip.all Char.isDigit || !fp.all Char.isDigit then none
    else if ip.isEmpty && fp.isEmpty then none
    else some ⟨(natOfDigits ip * 10 ^ fp.length + natOfDigits fp : ℕ), 10 ^ fp.length⟩

/-- Integer power of two as an exact rational (also negative exponents). -/
def pow2z (z : ℤ) : Q :=
  if 0 ≤ z then ⟨(2 ^ z.toNat : ℕ), 1⟩ else ⟨1, 2 ^ (-z).toNat⟩

/-- Exponent search (upward): the binade exponent of `q ≥ 1`. -/
def expUp (q : Q) : ℕ → ℕ → ℤ
  | 0, k => (k : ℤ)
  | f + 1, k => if qlt q (pow2z ((k : ℤ) + 1)) then (k : ℤ) else expUp q f (k + 1)

/-- Exponent search (downward): the binade exponent of `0 < q < 1`. -/
def expDown (q : Q) : ℕ → ℕ → ℤ
  | 0, k => -(k : ℤ)
  | f + 1, k =>
    if qle ⟨1, 1⟩ (qmul q (pow2z (k : ℤ))) then -(k : ℤ) else expDown q f (k + 1)

/-- Binade exponent `e` of a positive rational: `2^e ≤ q < 2^(e+1)`. -/
def expOf (q : Q) : ℤ :=
  if qle ⟨1, 1⟩ q then expUp q 2200 0 else expDown q 2200 1

/-- Round a nonnegative rational to the nearest IEEE-754 binary64 value
(53-bit significand, round to nearest, ties to even), for inputs below the
overflow threshold (`qovf` below detects inputs that round to infinity
instead).  Subnormals are not modelled: the smallest positive value the
scanners can produce is 0.01, far inside the normal range. -/
def quantize (q : Q) : Q :=
  if qle q ⟨0, 1⟩ then ⟨0, 1⟩
  else
    let e := expOf q
    qmul ⟨roundEven (qmul q (pow2z (52 - e))), 1⟩ (pow2z (e - 52))

/-- Cents conversion of one regex match as the source computes it:
`amount = float(s)`, `amount_cents = int(amount * 100)` — parse, quantize to
binary64, multiply by 100 in binary64, truncate.  `none` is the
`(ValueError, TypeError)` branch, which the source skips. -/
def centsOfTrunc (m : List Char) : Option ℕ :=
  (parseDec (cleanAmt m)).map fun q =>
    (qfloor (quantize (qmul (quantize q) ⟨100, 1⟩))).toNat

/-- Cents conversion as the specification words it: `round(amount * 100)`
(Python `round` is nearest, ties to even) instead of `int(...)`.  This is the
spec-side definition used to compare against the source's truncation. -/
def centsOfRound (m : List Char) : Option ℕ :=
  (parseDec (cleanAmt m)).map fun q =>
    (roundEven (quantize (qmul (quantize q) ⟨100, 1⟩))).toNat

/-- One pattern's inner loop of `extract_bounty_amount`: fold the matches
into the running maximum, skipping parse failures. -/
def runMax (ms : List (List Char)) (acc : ℕ) : ℕ :=
  ms.foldl
    (fun a m =>
      match centsOfTrunc m with
      | some c => max a c
      | none => a)
    acc

/-- `GitHubService.extract_bounty_amount`: lowercase the text, run the five
patterns in order, and keep the maximum converted amount (0 if none). -/
def extract_bounty_amount (s : String) : ℕ :=
  if s = "" then 0
  else
    let t := lowerList s.data
    runMax (findallKw ['p', 'r', 'i', 'z', 'e'] (t.length + 1) t)
      (runMax (findallKw ['r', 'e', 'w', 'a', 'r', 'd'] (t.length + 1) t)
        (runMax (findallKw ['b', 'o', 'u', 'n', 't', 'y'] (t.length + 1) t)
          (runMax (findallUsd (t.length + 1) t)
            (runMax (findallDollar (t.length + 1) t) 0))))

/-- Spec-shaped formula with the source's truncating conversion: the maximum
over all parseable matches of `int(float(s) * 100)`. -/
def specTruncAmount (s : String) : ℕ :=
  ((allMatches (lowerList s.data)).filterMap centsOfTrunc).foldr max 0

/-- Spec-shaped formula exactly as the specification words it: the maximum
over all parseable matches of `round(amount * 100)`. -/
def specRoundAmount (s : String) : ℕ :=
  ((allMatches (lowerList s.data)).filterMap centsOfRound).foldr max 0

/-- Substring test (`keyword in text`). -/
def hasSub (needle : List Char) : List Char → Bool
  | [] => (matchLit needle []).isSome
  | c :: t => (matchLit needle (c :: t)).isSome || hasSub needle t

/-- The ordered source table of `determine_bounty_source` (Python dicts
iterate in insertion order). -/
def srcTable : List (String × List String) :=
  [("bountysource", ["bountysource", "bounty source"]),
   ("gitcoin", ["gitcoin"]),
   ("algora", ["algora"]),
   ("console", ["console.dev"]),
   ("devcash", ["devcash"]),
   ("github_sponsors", ["github sponsors", "sponsor"]),
   ("custom", ["bounty", "reward", "prize"])]

/-- `GitHubService.determine_bounty_source`: first source tag whose keyword
list has a member occurring in the lowercased text. -/
def determine_bounty_source (s : String) : Option String :=
  if s = "" then none
  else
    let t := lowerList s.data
    (srcTable.find? fun p => p.2.any fun kw => hasSub kw.data t).map (·.1)

/-- Lowercase a whole string (`.lower()` on ASCII text). -/
def lowerStr (s : String) : String := String.mk (lowerList s.data)

/-! ## Ingestion pipeline state machine -/

/-- Python exceptions that can escape the service functions (everything the
source catches locally is absorbed into normal return values instead). -/
inductive PErr
  | keyError
  | valueError
  | typeError
  | attributeError
  | overflowError
deriving Repr, DecidableEq

/-- The smallest positive rational that IEEE-754 binary64 round-to-nearest,
ties-to-even maps to infinity: the midpoint `2^1024 - 2^970` between the
largest finite double `2^1024 - 2^971` and `2^1024` (the midpoint itself
ties to the even `2^1024`, which overflows). -/
def ovfQ : Q := ⟨(179769313486231580793728971405303415079934132710037826936173778980444968292764750946649017977587207096330286416692887910946555547851940402630657488671505820681908902000708383676273854845817711531764475730270069855571366959622842914819860834936475292719074168444365510704342711559699508093042880177904174497792 : ℤ), 1⟩

/-- Does rounding this nonnegative exact rational to binary64 overflow to
infinity? -/
def qovf (v : Q) : Bool := qle ovfQ v

/-- Does converting this regex match raise `OverflowError` in the source?
True when the match parses but `float(cleaned)` overflows to infinity, or
the finite parsed double times 100 overflows to infinity: in both cases
`int(amount * 100)` is `int(inf)`, which raises `OverflowError` — an
exception `except (ValueError, TypeError)` does not catch. -/
def centsOvfB (m : List Char) : Bool :=
  match parseDec (cleanAmt m) with
  | none => false
  | some q => qovf q || qovf (qmul (quantize q) ⟨100, 1⟩)

/-- Cents conversion of one regex match with the overflow path modelled:
`.ok none` is the caught `ValueError` (the match is skipped), `.error
.overflowError` the uncaught `OverflowError` of `int(inf)`, and `.ok (some
c)` the normal truncating conversion `int(float(cleaned) * 100)`. -/
def centsOfTruncE (m : List Char) : Except PErr (Option ℕ) :=
  match parseDec (cleanAmt m) with
  | none => .ok none
  | some q =>
    if qovf q || qovf (qmul (quantize q) ⟨100, 1⟩) then .error .overflowError
    else .ok (some (qfloor (quantize (qmul (quantize q) ⟨100, 1⟩))).toNat)

/-- The match loop of `extract_bounty_amount` with the overflow path: fold
the matches into the running maximum, skipping parse failures and raising
`OverflowError` out of the loop at the first overflowing match. -/
def runMaxE : List (List Char) → ℕ → Except PErr ℕ
  | [], acc => .ok acc
  | m :: ms, acc =>
    match centsOfTruncE m with
    | .error e => .error e
    | .ok none => runMaxE ms acc
    | .ok (some c) => runMaxE ms (max acc c)

/-- `GitHubService.extract_bounty_amount` with its uncaught `OverflowError`
path: lowercase the text, run the five patterns in order, keep the maximum
converted amount (0 if none), and raise on a match whose conversion
overflows binary64. -/
def extract_bounty_amountE (s : String) : Except PErr ℕ :=
  if s = "" then .ok 0 else runMaxE (allMatches (lowerList s.data)) 0

/-- Does some regex match of this text overflow the binary64 conversion
(making `extract_bounty_amount` raise `OverflowError`)? -/
def amtOvfB (s : String) : Bool := (allMatches (lowerList s.data)).any centsOvfB

deriving instance DecidableEq for Except

/-- A timestamp field of a raw JSON payload, pre-tokenized: `missing` is an
absent (or falsy) value, `bad` is a present string `datetime.fromisoformat`
rejects (a `ValueError` where parsed), `ts` is a parsed UTC value in
seconds. -/
inductive JTime
  | missing
  | bad
  | ts (t : ℤ)
deriving Repr, DecidableEq

/-- The `body` field of a raw issue payload.  GitHub serves `null` bodies,
and the source treats `github_data.get("body", d)` and `... or ""`
differently on the create and update paths, so absent, explicit null and a
string are distinguished. -/
inductive JBody
  | missing
  | null
  | str (s : String)
deriving Repr, DecidableEq

/-- Effective body text used for bounty extraction:
`github_data.get("body", "") or ""`. -/
def effBody : JBody → String
  | .missing => ""
  | .null => ""
  | .str s => s

/-- Raw label entry of an issue payload. -/
structure RawLabel where
  name? : Option String
  color? : Option String
  description? : Option String
deriving Repr, DecidableEq

/-- Raw issue item of a search page, with only the fields the pipeline
reads; `Option` is an absent key (`KeyError` where subscripted). -/
structure RawIssue where
  id? : Option String
  number? : Option ℤ
  title? : Option String
  body? : JBody
  html_url? : Option String
  url? : Option String
  repository_url? : Option String
  state? : Option String
  pull_request : Bool
  user? : Option (String × String)
  assignee? : Option String
  comments? : Option ℤ
  created_at? : JTime
  updated_at? : JTime
  closed_at? : JTime
  labels : List RawLabel
deriving Repr, DecidableEq

/-- Raw repository payload, with only the fields the pipeline reads. -/
structure RawRepo where
  id? : Option String
  description? : Option String
  html_url? : Option String
  clone_url? : Option String
  ssh_url? : Option String
  private? : Bool
  fork? : Bool
  archived? : Bool
  disabled? : Bool
  language? : Option String
  stargazers_count? : Option ℤ
  forks_count? : Option ℤ
  watchers_count? : Option ℤ
  open_issues_count? : Option ℤ
  size? : Option ℤ
  license? : Option (Option String × Option String)
  created_at? : JTime
  updated_at? : JTime
  pushed_at? : JTime
deriving Repr, DecidableEq

/-- Raw comment payload. -/
structure RawComment where
  id? : Option String
  body? : Option String
  html_url? : Option String
  user? : Option (String × String)
  author_association? : Option String
  created_at? : JTime
  updated_at? : JTime
deriving Repr, DecidableEq

/-- Body of a successful upstream JSON response: a search page (`none`
inside is a dict without an `items` key), a repository object, or a comment
array. -/
inductive ApiBody
  | searchResult (items : Option (List RawIssue))
  | repoData (rd : RawRepo)
  | commentsData (cs : List RawComment)
deriving Repr, DecidableEq

/-- Outcome of one `make_request` call as seen on the wire: no response at
all (timeout / transport error, headers never read), or a response with its
`X-RateLimit-Remaining` header and an optional JSON body (`none` is any of
the failure branches: 403 with exhausted budget, 404, `raise_for_status`). -/
inductive ReqOutcome
  | noResponse
  | response (header : Option ℤ) (body : Option ApiBody)
deriving Repr, DecidableEq

/-- Mutable service state: the rate-limit counter plus the oracle stream of
request outcomes that `make_request` consumes one per call. -/
structure SvcState where
  rateRemaining : ℤ
  stream : List ReqOutcome
deriving Repr, DecidableEq

/-- `GitHubService.make_request`: consume the next outcome; on any received
response, overwrite `rate_limit_remaining` with
`int(response.headers.get("X-RateLimit-Remaining", 0))` before any status
handling; all error branches return `None`. -/
def makeRequest (st : SvcState) : SvcState × Option ApiBody :=
  match st.stream with
  | [] => (st, none)
  | .noResponse :: rest => (⟨st.rateRemaining, rest⟩, none)
  | .response h b :: rest => (⟨h.getD 0, rest⟩, b)

/-- Issue status as stored (upstream state `"closed"` maps to closed,
anything else to open). -/
inductive IssueStatus
  | opened
  | closed
deriving Repr, DecidableEq

/-- Stored label row (`labels` table): unique by name. -/
structure LabelRec where
  name : String
  color : String
  description : Option String
deriving Repr, DecidableEq

/-- Stored issue row, restricted to the columns the ingestion pipeline
writes (unmodelled columns keep their defaults and are never touched by this
code path). -/
structure IssueRec where
  iid : ℕ
  github_id : String
  github_number : ℤ
  title : String
  body : Option String
  html_url : String
  api_url : String
  repository_id : ℕ
  repository_full_name : String
  repository_owner : String
  repository_name : String
  status : IssueStatus
  is_pull_request : Bool
  bounty_amount : ℕ
  has_bounty : Bool
  bounty_source : Option String
  author_username : String
  author_avatar_url : String
  assignee_username : Option String
  comments_count : ℤ
  github_created_at : ℤ
  github_updated_at : ℤ
  github_closed_at : Option ℤ
  last_fetched_at : Option ℤ
  fetch_count : ℕ
  labels : List String
  primary_language : Option String
deriving Repr, DecidableEq

/-- Stored repository row, restricted to the columns the pipeline writes. -/
structure RepoRec where
  rid : ℕ
  github_id : String
  full_name : String
  name : String
  owner : String
  description : Option String
  html_url : String
  clone_url : String
  ssh_url : String
  isPrivate : Bool
  is_fork : Bool
  is_archived : Bool
  is_disabled : Bool
  primary_language : Option String
  stars_count : ℤ
  forks_count : ℤ
  watchers_count : ℤ
  open_issues_count : ℤ
  size_kb : ℤ
  github_created_at : ℤ
  github_updated_at : ℤ
  github_pushed_at : Option ℤ
  last_fetched_at : Option ℤ
  fetch_count : ℕ
  license_name : Option String
  license_spdx_id : Option String
deriving Repr, DecidableEq

/-- Stored comment row. -/
structure CommentRec where
  github_id : String
  issue_id : ℕ
  body : String
  html_url : String
  author_username : String
  author_avatar_url : String
  author_association : Option String
  github_created_at : ℤ
  github_updated_at : ℤ
deriving Repr, DecidableEq

/-- Committed database state.  The application's sessions are created with
`autoflush=False`, so queries inside one request cycle see exactly this
committed state; `db.add` objects only land here at a successful
`db.commit()`. -/
structure DB where
  issues : List IssueRec
  repos : List RepoRec
  labelsT : List LabelRec
  commentsT : List CommentRec
deriving Repr, DecidableEq

/-- Subscripting a required key: `d["k"]` raises `KeyError` when absent. -/
def req {α : Type} : Option α → Except PErr α
  | some a => .ok a
  | none => .error .keyError

/-- Required timestamp: subscripting raises `KeyError` when absent,
`datetime.fromisoformat` raises `ValueError` on an unparseable value. -/
def reqTime : JTime → Except PErr ℤ
  | .missing => .error .keyError
  | .bad => .error .valueError
  | .ts t => .ok t

/-- Helper for `splitSlash`: accumulate the current segment (reversed). -/
def splitSlashGo : List Char → List Char → List String
  | [], cur => [String.mk cur.reverse]
  | c :: rest, cur =>
    if c = '/' then String.mk cur.reverse :: splitSlashGo rest []
    else splitSlashGo rest (c :: cur)

/-- Python `str.split("/")`: split at every slash; the empty string yields
`[""]`. -/
def splitSlash (s : String) : List String := splitSlashGo s.data []

/-- Staleness test of `get_or_create_repository`:
`last_fetched_at and (utcnow() - last_fetched_at).days >= 1` with
`timedelta.days` a floor division of the second difference. -/
def isStale (now : ℤ) : Option ℤ → Bool
  | none => false
  | some t => decide (1 ≤ Int.fdiv (now - t) 86400)

/-- Uniqueness check performed by the database on commit: the pending
inserts of one transaction must not collide on a unique column. -/
def namesNodup : List String → Bool
  | [] => true
  | x :: xs => !xs.contains x && namesNodup xs

/-- The `try:` block of the repository create path: populate a new row from
a fetched payload; any missing required key or unparseable timestamp is
caught by the enclosing `except Exception` and yields `None`. -/
def buildRepo (now : ℤ) (owner nm : String) (rd : RawRepo) (freshId : ℕ) :
    Option RepoRec := do
  let createdAt ← match rd.created_at? with
    | .ts t => some t
    | _ => none
  let updatedAt ← match rd.updated_at? with
    | .ts t => some t
    | _ => none
  let pushedAt ← match rd.pushed_at? with
    | .missing => some none
    | .bad => none
    | .ts t => some (some t)
  let gid ← rd.id?
  let htmlUrl ← rd.html_url?
  let cloneUrl ← rd.clone_url?
  let sshUrl ← rd.ssh_url?
  some
    { rid := freshId
      github_id := gid
      full_name := owner ++ "/" ++ nm
      name := nm
      owner := owner
      description := rd.description?
      html_url := htmlUrl
      clone_url := cloneUrl
      ssh_url := sshUrl
      isPrivate := rd.private?
      is_fork := rd.fork?
      is_archived := rd.archived?
      is_disabled := rd.disabled?
      primary_language := rd.language?
      stars_count := rd.stargazers_count?.getD 0
      forks_count := rd.forks_count?.getD 0
      watchers_count := rd.watchers_count?.getD 0
      open_issues_count := rd.open_issues_count?.getD 0
      size_kb := rd.size?.getD 0
      github_created_at := createdAt
      github_updated_at := updatedAt
      github_pushed_at := pushedAt
      last_fetched_at := some now
      fetch_count := 1
      license_name := (rd.license?.map (·.1)).getD none
      license_spdx_id := (rd.license?.map (·.2)).getD none }

/-- `GitHubService.update_repository_data` on a stale repository: one
refresh fetch.  On fetch failure nothing happens and the committed state is
untouched.  On any fetched payload the source mutates the session object via
`update_from_github` and then calls `repository.update_bounty_stats(db)`,
which evaluates `db_session.func` — an attribute that does not exist on a
sqlalchemy `Session` — so an `AttributeError` is raised before the `try:`
around `db.commit()` is reached; no refreshed field is ever committed. -/
def updateRepositoryData (st : SvcState) : Except PErr SvcState :=
  let (st', body) := makeRequest st
  match body with
  | none => .ok st'
  | some _ => .error .attributeError

/-- `GitHubService.get_or_create_repository`: cache hit if fresh, refresh
attempt if stale, create fetch if absent (with all create-path errors
absorbed into `None`). -/
def getOrCreateRepository (now : ℤ) (owner nm : String) (st : SvcState)
    (db : DB) : Except PErr (SvcState × DB × Option RepoRec) :=
  let fullName := owner ++ "/" ++ nm
  match db.repos.find? (fun r => r.full_name == fullName) with
  | some r =>
    if isStale now r.last_fetched_at then
      match updateRepositoryData st with
      | .error e => .error e
      | .ok st' => .ok (st', db, some r)
    else .ok (st, db, some r)
  | none =>
    let (st', body) := makeRequest st
    match body with
    | some (.repoData rd) =>
      match buildRepo now owner nm rd db.repos.length with
      | some rrec => .ok (st', { db with repos := db.repos ++ [rrec] }, some rrec)
      | none => .ok (st', db, none)
    | _ => .ok (st', db, none)

/-- `GitHubService.process_issue_labels` under `autoflush=False`: lookups
run against the committed label table (a constant snapshot), a found label
is attached by object identity unless already attached, and a fresh label
object is always attached and queued for insert. -/
def processLabelsGo (committed : List LabelRec) :
    List RawLabel → List String → List LabelRec → List String × List LabelRec
  | [], att, pend => (att, pend)
  | l :: ls, att, pend =>
    let lname := lowerStr (l.name?.getD "")
    match committed.find? (fun lr => lr.name == lname) with
    | some _ =>
      processLabelsGo committed ls
        (if att.contains lname then att else att ++ [lname]) pend
    | none =>
      processLabelsGo committed ls (att ++ [lname])
        (pend ++ [⟨lname, "#" ++ l.color?.getD "cccccc", l.description?⟩])

/-- The `if github_data.get("updated_at"):` guard of `update_from_github`:
keep the old value if the key is absent (or falsy), parse it otherwise
(raising `ValueError` on a bad string). -/
def updTime : JTime → ℤ → Except PErr ℤ
  | .missing, old => .ok old
  | .bad, _ => .error .valueError
  | .ts t, _ => .ok t

/-- Same guard for `closed_at`, whose stored column is nullable. -/
def closedTime : JTime → Option ℤ → Except PErr (Option ℤ)
  | .missing, old => .ok old
  | .bad, _ => .error .valueError
  | .ts t, _ => .ok (some t)

/-- The field assignments of `Issue.update_from_github` (note
`get("body", self.body)` copies an explicit null through). -/
def applyUpdate (now : ℤ) (ex : IssueRec) (gd : RawIssue) (gu : ℤ)
    (gc : Option ℤ) : IssueRec :=
  { ex with
    title := gd.title?.getD ex.title
    body := match gd.body? with
      | .missing => ex.body
      | .null => none
      | .str s => some s
    status := if gd.state? == some "closed" then .closed else .opened
    comments_count := gd.comments?.getD 0
    github_updated_at := gu
    github_closed_at := gc
    last_fetched_at := some now
    fetch_count := ex.fetch_count + 1 }

/-- `Issue.update_from_github`: refresh the mutable fields from the payload;
a present unparseable timestamp raises `ValueError` out of the caller. -/
def updateFromGithub (now : ℤ) (ex : IssueRec) (gd : RawIssue) :
    Except PErr IssueRec := do
  let gupd ← updTime gd.updated_at? ex.github_updated_at
  let gclosed ← closedTime gd.closed_at? ex.github_closed_at
  .ok (applyUpdate now ex gd gupd gclosed)

/-- Replace the stored issue row carrying the given external id. -/
def replaceIssue (db : DB) (irec : IssueRec) : DB :=
  { db with issues :=
      db.issues.map fun i => if i.github_id == irec.github_id then irec else i }

/-- `GitHubService.process_issue_from_search`: the issue upsert.  Returns
the processed issue, `none` when the item is skipped or its transaction
rolls back, and an error when an uncaught exception escapes (missing
required key, unparseable timestamp, or the stale-repository refresh bug). -/
def processIssueFromSearch (now min_amount : ℤ) (gd : RawIssue)
    (st : SvcState) (db : DB) : Except PErr (SvcState × DB × Option IssueRec) := do
  let githubId ← req gd.id?
  let existing := db.issues.find? (fun i => i.github_id == githubId)
  let title := gd.title?.getD ""
  let body := effBody gd.body?
  let text := title ++ " " ++ body
  let bountyAmount ← extract_bounty_amountE text
  if (bountyAmount : ℤ) < min_amount then
    .ok (st, db, none)
  else
    match (splitSlash (gd.repository_url?.getD "")).reverse with
    | rname :: rowner :: _ =>
      match ← getOrCreateRepository now rowner rname st db with
      | (st', db', none) => .ok (st', db', none)
      | (st', db', some repo) =>
        match existing with
        | some ex => do
          let ex₁ ← updateFromGithub now ex gd
          let ex₂ := { ex₁ with
                       bounty_amount := bountyAmount
                       has_bounty := decide (0 < bountyAmount)
                       bounty_source := determine_bounty_source text }
          let lp := processLabelsGo db'.labelsT gd.labels ex₂.labels []
          let ex₃ := { ex₂ with labels := lp.1 }
          if namesNodup (lp.2.map (·.name)) then
            .ok (st', { replaceIssue db' ex₃ with labelsT := db'.labelsT ++ lp.2 },
              some ex₃)
          else
            .ok (st', db', none)
        | none => do
          let createdAt ← reqTime gd.created_at?
          let updatedAt ← reqTime gd.updated_at?
          let number ← req gd.number?
          let htmlUrl ← req gd.html_url?
          let apiUrl ← req gd.url?
          let user ← req gd.user?
          let irec : IssueRec :=
            { iid := db'.issues.length
              github_id := githubId
              github_number := number
              title := title
              body := some body
              html_url := htmlUrl
              api_url := apiUrl
              repository_id := repo.rid
              repository_full_name := rowner ++ "/" ++ rname
              repository_owner := rowner
              repository_name := rname
              status := if gd.state? == some "closed" then .closed else .opened
              is_pull_request := gd.pull_request
              bounty_amount := bountyAmount
              has_bounty := decide (0 < bountyAmount)
              bounty_source := determine_bounty_source text
              author_username := user.1
              author_avatar_url := user.2
              assignee_username := gd.assignee?
              comments_count := gd.comments?.getD 0
              github_created_at := createdAt
              github_updated_at := updatedAt
              github_closed_at := none
              last_fetched_at := some now
              fetch_count := 1
              labels := []
              primary_language := repo.primary_language }
          let lp := processLabelsGo db'.labelsT gd.labels [] []
          let irec₁ := { irec with labels := lp.1 }
          if namesNodup (lp.2.map (·.name)) then
            .ok (st', { db' with
                        issues := db'.issues ++ [irec₁]
                        labelsT := db'.labelsT ++ lp.2 }, some irec₁)
          else
            .ok (st', db', none)
    | _ => .ok (st, db, none)

/-- Inner loop of `fetch_issue_comments`: accumulate the raw comments whose
external id is not yet committed; lookups run against the committed comment
table (`autoflush=False`), so duplicates inside one batch are all
accumulated. -/
def commentsGo (iid : ℕ) (committed : List CommentRec) :
    List RawComment → List CommentRec → Except PErr (List CommentRec)
  | [], acc => .ok acc
  | c :: rest, acc => do
    let gid ← req c.id?
    if committed.any (fun r => r.github_id == gid) then
      commentsGo iid committed rest acc
    else do
      let createdAt ← reqTime c.created_at?
      let updatedAt ← reqTime c.updated_at?
      let htmlUrl ← req c.html_url?
      let user ← req c.user?
      commentsGo iid committed rest
        (acc ++ [⟨gid, iid, c.body?.getD "", htmlUrl, user.1, user.2,
          c.author_association?, createdAt, updatedAt⟩])

/-- `GitHubService.fetch_issue_comments`: fetch the comment collection, skip
comments already present, insert the rest.  A failed commit (duplicate
external ids inside the batch) rolls back but the accumulated list is still
returned, exactly as the source's `except`/`return comments` does. -/
def fetchIssueComments (iid : ℕ) (st : SvcState) (db : DB) :
    Except PErr (SvcState × DB × List CommentRec) :=
  let (st', body) := makeRequest st
  match body with
  | none => .ok (st', db, [])
  | some (.commentsData cs) =>
    if cs.isEmpty then .ok (st', db, [])
    else
      match commentsGo iid db.commentsT cs [] with
      | .error e => .error e
      | .ok acc =>
        if namesNodup (acc.map (·.github_id)) then
          .ok (st', { db with commentsT := db.commentsT ++ acc }, acc)
        else
          .ok (st', db, acc)
  | some _ => .error .typeError

/-- One page's item loop of `search_bounty_issues`: process the items in
order, accumulating the non-`None` results; an uncaught exception aborts the
whole crawl. -/
def processItems (now min_amount : ℤ) :
    List RawIssue → SvcState → DB → List IssueRec →
      Except PErr (SvcState × DB × List IssueRec)
  | [], st, db, acc => .ok (st, db, acc)
  | g :: gs, st, db, acc => do
    let r ← processIssueFromSearch now min_amount g st db
    match r with
    | (st', db', some i) => processItems now min_amount gs st' db' (acc ++ [i])
    | (st', db', none) => processItems now min_amount gs st' db' acc

/-- The page loop of `search_bounty_issues`: before each page check
`rate_limit_remaining < 10` and stop; request the page; stop on a failed
request, a body without `items`, or an empty item list; otherwise process
the items and continue with the next page. -/
def crawlLoop (now min_amount : ℤ) :
    ℕ → SvcState → DB → List IssueRec → Except PErr (SvcState × DB × List IssueRec)
  | 0, st, db, acc => .ok (st, db, acc)
  | p + 1, st, db, acc =>
    if st.rateRemaining < 10 then .ok (st, db, acc)
    else
      let (st', body) := makeRequest st
      match body with
      | some (.searchResult (some items)) =>
        if items.isEmpty then .ok (st', db, acc)
        else do
          let r ← processItems now min_amount items st' db acc
          match r with
          | (st'', db'', acc'') => crawlLoop now min_amount p st'' db'' acc''
      | _ => .ok (st', db, acc)

/-- `GitHubService.search_bounty_issues`: run up to `max_pages` pages and
return the accumulated list of processed issues. -/
def searchBountyIssues (now min_amount : ℤ) (max_pages : ℕ) (st : SvcState)
    (db : DB) : Except PErr (SvcState × DB × List IssueRec) :=
  crawlLoop now min_amount max_pages st db []

/-! ## Well-formedness predicates and concrete fixtures -/

/-- A raw issue item carrying every field the upsert subscripts
unconditionally, with parseable required timestamps and a bounty text none
of whose matches overflows the binary64 conversion: exactly the items on
which `process_issue_from_search` raises no exception. -/
def wfItemB (gd : RawIssue) : Bool :=
  gd.id?.isSome && gd.number?.isSome && gd.html_url?.isSome &&
    gd.url?.isSome && gd.user?.isSome &&
    (match gd.created_at? with
      | .ts _ => true
      | _ => false) &&
    (match gd.updated_at? with
      | .ts _ => true
      | _ => false) &&
    (match gd.closed_at? with
      | .bad => false
      | _ => true) &&
    !amtOvfB (gd.title?.getD "" ++ " " ++ effBody gd.body?)

/-- A request outcome whose search items (if any) are all well formed. -/
def wfOutcomeB : ReqOutcome → Bool
  | .response _ (some (.searchResult (some items))) => items.all wfItemB
  | _ => true

/-- An oracle stream whose search pages contain only well-formed items. -/
def wfStreamB (l : List ReqOutcome) : Bool := l.all wfOutcomeB

/-- No stored repository is stale at the given instant (a stale repository
plus a successful refresh fetch makes the crawl raise, see C6). -/
def freshReposB (now : ℤ) (db : DB) : Bool :=
  db.repos.all fun r => !isStale now r.last_fetched_at

/-- Fixture: a cached repository `o/r` that was never refreshed
(`last_fetched_at` NULL, so the staleness branch is skipped). -/
def repo0 : RepoRec :=
  { rid := 0, github_id := "r1", full_name := "o/r", name := "r", owner := "o"
    description := none, html_url := "h", clone_url := "c", ssh_url := "s"
    isPrivate := false, is_fork := false, is_archived := false
    is_disabled := false, primary_language := some "py", stars_count := 1
    forks_count := 0, watchers_count := 0, open_issues_count := 0, size_kb := 0
    github_created_at := 0, github_updated_at := 0, github_pushed_at := none
    last_fetched_at := none, fetch_count := 1, license_name := none
    license_spdx_id := none }

/-- Fixture: a database holding only the cached repository. -/
def db0 : DB := ⟨[], [repo0], [], []⟩

/-- Fixture: service state with a full budget and an empty oracle stream. -/
def st0 : SvcState := ⟨5000, []⟩

/-- Fixture: a fully well-formed search item for repository `o/r` with a
`bounty: $100` title and one label. -/
def payloadGood : RawIssue :=
  { id? := some "1", number? := some 7, title? := some "bounty: $100"
    body? := .str "x", html_url? := some "h", url? := some "u"
    repository_url? := some "api/repos/o/r", state? := some "open"
    pull_request := false, user? := some ("a", "av"), assignee? := none
    comments? := some 2, created_at? := .ts 0, updated_at? := .ts 0
    closed_at? := .missing
    labels := [⟨some "Bug", some "fff", none⟩] }

/-- Fixture: the issue row `process_issue_from_search` creates from
`payloadGood` against `db0`. -/
def issueGood : IssueRec :=
  { iid := 0, github_id := "1", github_number := 7, title := "bounty: $100"
    body := some "x", html_url := "h", api_url := "u", repository_id := 0
    repository_full_name := "o/r", repository_owner := "o"
    repository_name := "r", status := .opened, is_pull_request := false
    bounty_amount := 10000, has_bounty := true, bounty_source := some "custom"
    author_username := "a", author_avatar_url := "av"
    assignee_username := none, comments_count := 2, github_created_at := 0
    github_updated_at := 0, github_closed_at := none
    last_fetched_at := some 0, fetch_count := 1, labels := ["bug"]
    primary_language := some "py" }

/-- Fixture: the database state after upserting `payloadGood` into `db0`. -/
def dbGood : DB := ⟨[issueGood], [repo0], [⟨"bug", "#fff", none⟩], []⟩

/-- Fixture: an already-stored issue with external id `"1"` and a committed
$100 bounty. -/
def ex0 : IssueRec :=
  { iid := 0, github_id := "1", github_number := 7, title := "old"
    body := some "", html_url := "h", api_url := "u", repository_id := 0
    repository_full_name := "o/r", repository_owner := "o"
    repository_name := "r", status := .opened, is_pull_request := false
    bounty_amount := 10000, has_bounty := true, bounty_source := some "custom"
    author_username := "a", author_avatar_url := "av"
    assignee_username := none, comments_count := 0, github_created_at := 0
    github_updated_at := 0, github_closed_at := none
    last_fetched_at := some 0, fetch_count := 1, labels := []
    primary_language := none }

/-- Fixture: a database already holding `ex0`. -/
def dbEx : DB := ⟨[ex0], [repo0], [], []⟩

/-- Fixture: the same external id `"1"` re-encountered with only a $20
bounty in its text (below the $50 minimum). -/
def payloadLow : RawIssue :=
  { id? := some "1", number? := some 7, title? := some "bounty: $20"
    body? := .str "", html_url? := some "h", url? := some "u"
    repository_url? := some "api/repos/o/r", state? := some "open"
    pull_request := false, user? := some ("a", "av"), assignee? := none
    comments? := some 0, created_at? := .ts 0, updated_at? := .ts 0
    closed_at? := .missing, labels := [] }

/-- Fixture: a raw search item whose `id` key is absent — subscripting it
raises `KeyError` on the first line of `process_issue_from_search`. -/
def badItem : RawIssue :=
  { id? := none, number? := some 7, title? := some "x", body? := .missing
    html_url? := none, url? := none, repository_url? := none, state? := none
    pull_request := false, user? := none, assignee? := none, comments? := none
    created_at? := .missing, updated_at? := .missing, closed_at? := .missing
    labels := [] }

/-- Fixture: a well-formed item whose text mentions no money, so it is
discarded by the threshold check before any further work. -/
def cheapItem : RawIssue := { badItem with id? := some "9" }

/-- Fixture: `payloadGood` with an explicitly null body, a closed state and
a parseable `closed_at` timestamp. -/
def payloadNull : RawIssue :=
  { id? := some "1", number? := some 7, title? := some "bounty: $100"
    body? := .null, html_url? := some "h", url? := some "u"
    repository_url? := some "api/repos/o/r", state? := some "closed"
    pull_request := false, user? := some ("a", "av"), assignee? := none
    comments? := some 2, created_at? := .ts 0, updated_at? := .ts 0
    closed_at? := .ts 5, labels := [] }

/-- Fixture: the row created from `payloadNull` (null body normalized to
the empty string, `closed_at` ignored by the create path). -/
def iNull1 : IssueRec :=
  { iid := 0, github_id := "1", github_number := 7, title := "bounty: $100"
    body := some "", html_url := "h", api_url := "u", repository_id := 0
    repository_full_name := "o/r", repository_owner := "o"
    repository_name := "r", status := .closed, is_pull_request := false
    bounty_amount := 10000, has_bounty := true, bounty_source := some "custom"
    author_username := "a", author_avatar_url := "av"
    assignee_username := none, comments_count := 2, github_created_at := 0
    github_updated_at := 0, github_closed_at := none
    last_fetched_at := some 0, fetch_count := 1, labels := []
    primary_language := some "py" }

/-- Fixture: the same row after one further upsert of the identical payload
(the update path copies the null body through and applies `closed_at`). -/
def iNull2 : IssueRec :=
  { iNull1 with body := none, github_closed_at := some 5, fetch_count := 2 }

/-- Fixture: a stale copy of the cached repository (last fetched at the
epoch). -/
def repoStale : RepoRec := { repo0 with last_fetched_at := some 0 }

/-- Fixture: a database holding only the stale repository. -/
def dbStale : DB := ⟨[], [repoStale], [], []⟩

/-- Fixture: a complete, parseable repository payload for a refresh
fetch. -/
def rdGood : RawRepo :=
  { id? := some "r1", description? := none, html_url? := some "h"
    clone_url? := some "c", ssh_url? := some "s", private? := false
    fork? := false, archived? := false, disabled? := false, language? := none
    stargazers_count? := none, forks_count? := none, watchers_count? := none
    open_issues_count? := none, size? := none, license? := none
    created_at? := .ts 0, updated_at? := .ts 0, pushed_at? := .missing }

/-- Fixture: a raw upstream comment with external id `"a"`. -/
def rawCA : RawComment :=
  ⟨some "a", some "b", some "h", some ("a", "av"), none, .ts 0, .ts 0⟩

/-- Fixture: the stored row built from `rawCA` for issue 3. -/
def crecA : CommentRec := ⟨"a", 3, "b", "h", "a", "av", none, 0, 0⟩

/-- The lower-cased name under which a raw label is processed. -/
def lname (l : RawLabel) : String := lowerStr (l.name?.getD "")

/-! ## Helper lemmas -/

/-- Reduction of an `Except` bind on a success value. -/
theorem bind_ok_p {α β : Type} (a : α) (k : α → Except PErr β) :
    (do let x ← (Except.ok a : Except PErr α); k x) = k a := rfl

/-- Reduction of an `Except` bind on a raised exception. -/
theorem bind_err_p {α β : Type} (e : PErr) (k : α → Except PErr β) :
    (do let x ← (Except.error e : Except PErr α); k x) = Except.error e := rfl

/-- Subscripting a present key succeeds. -/
theorem req_some {α : Type} (a : α) : req (some a) = (.ok a : Except PErr α) := rfl

/-- Subscripting an absent key raises `KeyError`. -/
theorem req_none {α : Type} :
    (req (none : Option α)) = (.error .keyError : Except PErr α) := rfl

/-- A parseable required timestamp succeeds. -/
theorem reqTime_ts (t : ℤ) : reqTime (.ts t) = .ok t := rfl

/-- The overflow threshold literal is `2 ^ 1024 - 2 ^ 970`. -/
theorem ovfQ_eq : ovfQ.n = 2 ^ 1024 - 2 ^ 970 := by norm_num [ovfQ]

/-- On a match whose conversion does not overflow, the overflow-aware
conversion agrees with the total truncating conversion. -/
theorem centsOfTruncE_ok {m : List Char} (h : centsOvfB m = false) :
    centsOfTruncE m = .ok (centsOfTrunc m) := by
  simp only [centsOvfB] at h
  simp only [centsOfTruncE, centsOfTrunc]
  cases hp : parseDec (cleanAmt m) with
  | none => rfl
  | some q =>
    rw [hp] at h
    simp only [] at h ⊢
    rw [h]
    simp

/-- On a match whose conversion overflows, the conversion raises
`OverflowError`. -/
theorem centsOfTruncE_err {m : List Char} (h : centsOvfB m = true) :
    centsOfTruncE m = .error .overflowError := by
  simp only [centsOvfB] at h
  simp only [centsOfTruncE]
  cases hp : parseDec (cleanAmt m) with
  | none => rw [hp] at h; cases h
  | some q =>
    rw [hp] at h
    simp only [] at h ⊢
    rw [h]
    simp

/-- Over a match list with no overflowing match, the loop returns the
maximum of the truncating conversions. -/
theorem runMaxE_ok :
    ∀ (ms : List (List Char)) (acc : ℕ), (∀ m ∈ ms, centsOvfB m = false) →
      runMaxE ms acc = .ok (max acc ((ms.filterMap centsOfTrunc).foldr max 0)) := by
  intro ms
  induction ms with
  | nil => intro acc _; simp [runMaxE]
  | cons m ms ih =>
    intro acc h
    have hm := h m (List.mem_cons_self m ms)
    simp only [runMaxE]
    rw [centsOfTruncE_ok hm]
    cases hc : centsOfTrunc m with
    | none =>
      simp only []
      rw [ih acc fun x hx => h x (List.mem_cons_of_mem _ hx)]
      simp [List.filterMap_cons, hc]
    | some c =>
      simp only []
      rw [ih (max acc c) fun x hx => h x (List.mem_cons_of_mem _ hx)]
      simp [List.filterMap_cons, hc, Nat.max_assoc]

/-- Over a match list containing an overflowing match, the loop raises
`OverflowError`. -/
theorem runMaxE_err :
    ∀ (ms : List (List Char)) (acc : ℕ), ms.any centsOvfB = true →
      runMaxE ms acc = .error .overflowError := by
  intro ms
  induction ms with
  | nil => intro acc h; cases h
  | cons m ms ih =>
    intro acc h
    cases hm : centsOvfB m with
    | true =>
      simp only [runMaxE]
      rw [centsOfTruncE_err hm]
    | false =>
      have hrest : ms.any centsOvfB = true := by
        rw [List.any_cons, hm, Bool.false_or] at h
        exact h
      simp only [runMaxE]
      rw [centsOfTruncE_ok hm]
      cases hc : centsOfTrunc m with
      | none => simp only []; exact ih acc hrest
      | some c => simp only []; exact ih (max acc c) hrest

/-- On a text with no overflowing match, `extract_bounty_amount` returns
normally with the spec-shaped truncating maximum. -/
theorem extractE_ok {s : String} (h : amtOvfB s = false) :
    extract_bounty_amountE s = .ok (specTruncAmount s) := by
  by_cases hs : s = ""
  · subst hs; decide
  · simp only [amtOvfB] at h
    rw [extract_bounty_amountE, if_neg hs]
    rw [runMaxE_ok _ 0 fun m hm => by
      rcases ha : centsOvfB m with _ | _
      · rfl
      · exact absurd (List.any_eq_true.mpr ⟨m, hm, ha⟩) (by rw [h]; exact Bool.false_ne_true)]
    simp [specTruncAmount]

/-- On a text with an overflowing match, `extract_bounty_amount` raises
`OverflowError` (which `except (ValueError, TypeError)` does not catch). -/
theorem extractE_err {s : String} (h : amtOvfB s = true) :
    extract_bounty_amountE s = .error .overflowError := by
  by_cases hs : s = ""
  · subst hs; exact absurd h (by decide)
  · simp only [amtOvfB] at h
    rw [extract_bounty_amountE, if_neg hs]
    exact runMaxE_err _ 0 h

/-! ## Claim theorems -/

/-- C1: `extract_bounty_amount` and `determine_bounty_source` reproduce the
specification's reference examples exactly, including the maximum across all
pattern matches and the `custom`/`None` source fallbacks. -/
theorem C1_extraction_examples :
    extract_bounty_amount "Fix this bug - $150 bounty" = 15000 ∧
    extract_bounty_amount "Reward: 75 USD for completion" = 7500 ∧
    extract_bounty_amount "$1,250.50 prize available" = 125050 ∧
    extract_bounty_amount "no money mentioned here" = 0 ∧
    extract_bounty_amount "small $10 tip but bounty: $500" = 50000 ∧
    determine_bounty_source "Posted via gitcoin" = some "gitcoin" ∧
    determine_bounty_source "just a bounty" = some "custom" ∧
    determine_bounty_source "nothing relevant" = none := by decide

set_option maxRecDepth 8000 in
/-- C2 counterexample: the source converts with `int(amount * 100)` — a
truncation — not with `round(amount * 100)` as the claim states.  For the
text `"$0.29"` the match parses to the binary64 value nearest 0.29, whose
product with 100 is the double 28.999999999999996; `int` truncates it to 28
while the claimed `round` formula yields 29, so `extract_amount` disagrees
with the claimed value on this input.  And the claim's "malformed numeric
matches skipped rather than causing a failure" also fails: a dollar amount
of 309 digits parses to a float that overflows binary64 to infinity, so
`int(amount * 100)` raises `OverflowError`, which the `except (ValueError,
TypeError)` does not catch — `extract_amount` raises instead of returning a
maximum. -/
theorem C2_counterexample_trunc_vs_round :
    extract_bounty_amountE "$0.29" = .ok 28 ∧ specRoundAmount "$0.29" = 29 ∧
    ¬ extract_bounty_amount "$0.29" = specRoundAmount "$0.29" ∧
    extract_bounty_amountE (String.mk ('$' :: List.replicate 309 '9')) =
      .error .overflowError := by decide

/-- C5 counterexample: an item with external id `"1"` whose text now yields
only 2000 cents, against a store already holding that id with a committed
$100 bounty and a minimum of 5000 cents.  The upsert returns `None` and the
store is completely unchanged — the existing record is NOT updated with the
newly extracted amount, because the threshold check returns before the
update branch is reached. -/
theorem C5_counterexample_threshold_blocks_update :
    processIssueFromSearch 0 5000 payloadLow st0 dbEx = .ok (st0, dbEx, none) := by
  decide

/-- C4 counterexample: a crawl page whose single item lacks the required
`id` key.  `process_issue_from_search` subscripts `github_data["id"]`
outside any `try`, and `search_bounty_issues` does not guard the call, so
the `KeyError` escapes the crawl to its caller instead of being absorbed as
"no result for this item". -/
theorem C4_counterexample_missing_id_raises :
    searchBountyIssues 0 5000 5
      ⟨5000, [.response (some 100) (some (.searchResult (some [badItem])))]⟩
      db0 = .error .keyError := by decide

/-- C6 evaluation: (i) a repository fetched 23 hours ago (now = 82800 s) is
returned from cache with the oracle stream untouched — no network call;
(ii) a repository fetched 25 hours ago (now = 90000 s) triggers exactly one
refresh fetch, and when that fetch returns repository data the call raises
`AttributeError` — `update_bounty_stats` evaluates `db_session.func`, which
does not exist on a sqlalchemy `Session` — instead of overwriting the cached
fields and bumping the counters; (iii) when the refresh fetch fails, the
stale record is returned unchanged after consuming exactly one request. -/
theorem C6_staleness_eval :
    getOrCreateRepository 82800 "o" "r" ⟨5000, [.noResponse]⟩ dbStale =
      .ok (⟨5000, [.noResponse]⟩, dbStale, some repoStale) ∧
    getOrCreateRepository 90000 "o" "r"
        ⟨5000, [.response (some 9) (some (.repoData rdGood))]⟩ dbStale =
      .error .attributeError ∧
    getOrCreateRepository 90000 "o" "r" ⟨5000, [.response (some 9) none]⟩
        dbStale =
      .ok (⟨9, []⟩, dbStale, some repoStale) := by decide

/-- C7 counterexample: with the recorded remaining count exactly 10 — which
is not above the threshold 10 — the crawl still issues a page request: the
guard in the source is `rate_limit_remaining < 10`, so 10 passes.  The
single oracle response is consumed (the final stream is empty), refuting
"a page request is issued only when the remaining count is above 10". -/
theorem C7_counterexample_boundary_ten :
    searchBountyIssues 0 5000 1
      ⟨10, [.response (some 0) (some (.searchResult (some [])))]⟩ db0 =
      .ok (⟨0, []⟩, db0, []) := by decide

/-- C8 counterexample: upserting `payloadNull` (identical payload, body
explicitly null, closed with a parseable `closed_at`) twice in a row.  The
first call creates the row with body `""` and no `closed_at` (the create
path normalizes a null body via `or ""` and never reads `closed_at`); the
second call flips the stored body to SQL NULL (`get("body", self.body)`
copies the null through) and sets `github_closed_at` — two business fields
change under an identical re-upsert, refuting idempotence up to freshness
counters. -/
theorem C8_counterexample_null_body :
    processIssueFromSearch 0 5000 payloadNull st0 db0 =
      .ok (st0, ⟨[iNull1], [repo0], [], []⟩, some iNull1) ∧
    processIssueFromSearch 0 5000 payloadNull st0 ⟨[iNull1], [repo0], [], []⟩ =
      .ok (st0, ⟨[iNull2], [repo0], [], []⟩, some iNull2) ∧
    iNull1.body = some "" ∧ iNull2.body = none ∧
    iNull1.github_closed_at = none ∧ iNull2.github_closed_at = some 5 := by
  decide

/-- C9 counterexample: an upstream batch containing the same fresh external
id twice.  Under `autoflush=False` both copies pass the existence query and
are added; the commit then violates the unique constraint and rolls back, so
nothing is inserted — yet the function still returns both rows (the
`except` branch ends in `return comments`), refuting "returns only newly
inserted comments". -/
theorem C9_counterexample_dup_batch :
    fetchIssueComments 3
      ⟨5000, [.response (some 9) (some (.commentsData [rawCA, rawCA]))]⟩ db0 =
      .ok (⟨9, []⟩, db0, [crecA, crecA]) ∧ db0.commentsT = [] := by decide

/-- A successful `get_or_create_repository` call only ever writes the
repository table: the issue, label and comment tables are untouched. -/
theorem getOrCreate_keeps {now : ℤ} {o n : String} {st st1 : SvcState}
    {db db1 : DB} {rep : Option RepoRec}
    (h : getOrCreateRepository now o n st db = .ok (st1, db1, rep)) :
    db1.issues = db.issues ∧ db1.labelsT = db.labelsT ∧
      db1.commentsT = db.commentsT := by
  simp only [getOrCreateRepository] at h
  cases hf : db.repos.find? (fun r => r.full_name == o ++ "/" ++ n) with
  | some r =>
    rw [hf] at h
    simp only [] at h
    by_cases hs : isStale now r.last_fetched_at = true
    · rw [if_pos hs] at h
      cases hu : updateRepositoryData st with
      | error e => rw [hu] at h; simp at h
      | ok st2 =>
        rw [hu] at h
        simp only [Except.ok.injEq, Prod.mk.injEq] at h
        obtain ⟨-, rfl, -⟩ := h
        exact ⟨rfl, rfl, rfl⟩
    · rw [if_neg hs] at h
      simp only [Except.ok.injEq, Prod.mk.injEq] at h
      obtain ⟨-, rfl, -⟩ := h
      exact ⟨rfl, rfl, rfl⟩
  | none =>
    rw [hf] at h
    simp only [] at h
    cases hb : (makeRequest st).2 with
    | none =>
      rw [hb] at h
      simp only [Except.ok.injEq, Prod.mk.injEq] at h
      obtain ⟨-, rfl, -⟩ := h
      exact ⟨rfl, rfl, rfl⟩
    | some b =>
      rw [hb] at h
      match b with
      | .searchResult it =>
        simp only [Except.ok.injEq, Prod.mk.injEq] at h
        obtain ⟨-, rfl, -⟩ := h
        exact ⟨rfl, rfl, rfl⟩
      | .commentsData cs =>
        simp only [Except.ok.injEq, Prod.mk.injEq] at h
        obtain ⟨-, rfl, -⟩ := h
        exact ⟨rfl, rfl, rfl⟩
      | .repoData rd =>
        simp only [] at h
        cases hbr : buildRepo now o n rd db.repos.length with
        | none =>
          rw [hbr] at h
          simp only [Except.ok.injEq, Prod.mk.injEq] at h
          obtain ⟨-, rfl, -⟩ := h
          exact ⟨rfl, rfl, rfl⟩
        | some rrec =>
          rw [hbr] at h
          simp only [Except.ok.injEq, Prod.mk.injEq] at h
          obtain ⟨-, rfl, -⟩ := h
          exact ⟨rfl, rfl, rfl⟩

/-- `update_from_github` never changes the external id. -/
theorem updateFromGithub_gid {now : ℤ} {ex ex₁ : IssueRec} {gd : RawIssue}
    (h : updateFromGithub now ex gd = .ok ex₁) : ex₁.github_id = ex.github_id := by
  simp only [updateFromGithub] at h
  cases hu : updTime gd.updated_at? ex.github_updated_at with
  | error e => rw [hu] at h; simp only [bind_err_p] at h; cases h
  | ok gu =>
  rw [hu] at h
  simp only [bind_ok_p] at h
  cases hc : closedTime gd.closed_at? ex.github_closed_at with
  | error e => rw [hc] at h; simp only [bind_err_p] at h; cases h
  | ok gc =>
  rw [hc] at h
  simp only [bind_ok_p] at h
  injection h with h2
  subst h2
  rfl

/-- Replacing the row that carries an id keeps the replacement in the
table. -/
theorem mem_map_replace {l : List IssueRec} {a r : IssueRec} (ha : a ∈ l)
    (hid : (a.github_id == r.github_id) = true) :
    r ∈ l.map fun i => if i.github_id == r.github_id then r else i := by
  induction l with
  | nil => cases ha
  | cons x xs ih =>
    rcases List.mem_cons.mp ha with rfl | hmem
    · have hid' : a.github_id = r.github_id := by rwa [beq_iff_eq] at hid
      simp [hid, hid']
    · simp only [List.map_cons, List.mem_cons]
      exact Or.inr (ih hmem)

/-- C3: every issue record returned (and stored) by the upsert satisfies the
invariant that the bounty flag equals the positivity of the bounty amount —
both branches assign the pair together from the same extracted amount. -/
theorem C3_has_bounty_invariant (now m : ℤ) (gd : RawIssue) (st st' : SvcState)
    (db db' : DB) (i : IssueRec)
    (h : processIssueFromSearch now m gd st db = .ok (st', db', some i)) :
    i.has_bounty = decide (0 < i.bounty_amount) ∧ i ∈ db'.issues := by
  simp only [processIssueFromSearch] at h
  cases hid : gd.id? with
  | none => rw [hid] at h; simp only [req, bind_err_p] at h; cases h
  | some gid =>
  rw [hid] at h
  simp only [req, bind_ok_p] at h
  cases hamt : extract_bounty_amountE (gd.title?.getD "" ++ " " ++ effBody gd.body?) with
  | error e => rw [hamt] at h; simp only [bind_err_p] at h; cases h
  | ok amt =>
  rw [hamt] at h
  simp only [bind_ok_p] at h
  by_cases hth : (amt : ℤ) < m
  · rw [if_pos hth] at h; cases h
  rw [if_neg hth] at h
  rcases hsp : (splitSlash (gd.repository_url?.getD "")).reverse with _ | ⟨rname, _ | ⟨rowner, tl⟩⟩ <;>
    rw [hsp] at h
  · cases h
  · cases h
  simp only [] at h
  cases hrepo : getOrCreateRepository now rowner rname st db with
  | error e => rw [hrepo] at h; cases h
  | ok trip =>
  rw [hrepo] at h
  rcases trip with ⟨st1, db1, orep⟩
  simp only [bind_ok_p] at h
  obtain ⟨hkeep, -, -⟩ := getOrCreate_keeps hrepo
  cases orep with
  | none => simp only [] at h; cases h
  | some repo =>
  simp only [] at h
  cases hex : db.issues.find? (fun j => j.github_id == gid) with
  | some ex =>
    rw [hex] at h
    simp only [] at h
    cases hup : updateFromGithub now ex gd with
    | error e => rw [hup] at h; simp only [bind_err_p] at h; cases h
    | ok ex₁ =>
    rw [hup] at h
    simp only [bind_ok_p] at h
    split at h
    · simp only [Except.ok.injEq, Prod.mk.injEq, Option.some.injEq] at h
      obtain ⟨-, hdb', hi⟩ := h
      subst hi
      subst hdb'
      refine ⟨rfl, ?_⟩
      simp only [replaceIssue]
      rw [hkeep]
      refine mem_map_replace (List.mem_of_find?_eq_some hex) ?_
      rw [beq_iff_eq]
      exact (updateFromGithub_gid hup).symm
    · cases h
  | none =>
    rw [hex] at h
    simp only [] at h
    cases hcr : gd.created_at? with
    | missing => rw [hcr] at h; simp only [reqTime, bind_err_p] at h; cases h
    | bad => rw [hcr] at h; simp only [reqTime, bind_err_p] at h; cases h
    | ts tc =>
    rw [hcr] at h
    simp only [reqTime, bind_ok_p] at h
    cases hud : gd.updated_at? with
    | missing => rw [hud] at h; simp only [reqTime, bind_err_p] at h; cases h
    | bad => rw [hud] at h; simp only [reqTime, bind_err_p] at h; cases h
    | ts tu =>
    rw [hud] at h
    simp only [reqTime, bind_ok_p] at h
    cases hnum : gd.number? with
    | none => rw [hnum] at h; simp only [req, bind_err_p] at h; cases h
    | some num =>
    rw [hnum] at h
    simp only [req, bind_ok_p] at h
    cases hhtml : gd.html_url? with
    | none => rw [hhtml] at h; simp only [req, bind_err_p] at h; cases h
    | some htmlu =>
    rw [hhtml] at h
    simp only [req, bind_ok_p] at h
    cases hurl : gd.url? with
    | none => rw [hurl] at h; simp only [req, bind_err_p] at h; cases h
    | some apiu =>
    rw [hurl] at h
    simp only [req, bind_ok_p] at h
    cases huser : gd.user? with
    | none => rw [huser] at h; simp only [req, bind_err_p] at h; cases h
    | some usr =>
    rw [huser] at h
    simp only [req, bind_ok_p] at h
    split at h
    · simp only [Except.ok.injEq, Prod.mk.injEq, Option.some.injEq] at h
      obtain ⟨-, hdb', hi⟩ := h
      subst hi
      subst hdb'
      exact ⟨rfl, by simp⟩
    · cases h

/-- The nearest-even rounding of a rational is its floor or one above. -/
theorem roundEven_cases (v : Q) :
    roundEven v = qfloor v ∨ roundEven v = qfloor v + 1 := by
  simp only [roundEven]
  split
  · exact Or.inl rfl
  · split
    · exact Or.inr rfl
    · split
      · exact Or.inl rfl
      · exact Or.inr rfl

/-- The truncating and rounding cents conversions of one match agree up to
one cent, and fail on exactly the same malformed matches. -/
theorem cents_pair (m : List Char) :
    (centsOfTrunc m = none ∧ centsOfRound m = none) ∨
      ∃ a b, centsOfTrunc m = some a ∧ centsOfRound m = some b ∧
        a ≤ b ∧ b ≤ a + 1 := by
  cases hp : parseDec (cleanAmt m) with
  | none => exact Or.inl ⟨by simp [centsOfTrunc, hp], by simp [centsOfRound, hp]⟩
  | some q =>
    refine Or.inr ⟨(qfloor (quantize (qmul (quantize q) ⟨100, 1⟩))).toNat,
      (roundEven (quantize (qmul (quantize q) ⟨100, 1⟩))).toNat,
      by simp [centsOfTrunc, hp], by simp [centsOfRound, hp], ?_, ?_⟩ <;>
      rcases roundEven_cases (quantize (qmul (quantize q) ⟨100, 1⟩)) with he | he <;>
        rw [he] <;> omega

/-- The truncating and rounding maxima over a match list agree up to one
cent. -/
theorem fold_pair (ms : List (List Char)) :
    (ms.filterMap centsOfTrunc).foldr max 0 ≤
        (ms.filterMap centsOfRound).foldr max 0 ∧
      (ms.filterMap centsOfRound).foldr max 0 ≤
        (ms.filterMap centsOfTrunc).foldr max 0 + 1 := by
  induction ms with
  | nil => simp
  | cons m ms ih =>
    obtain ⟨iha, ihb⟩ := ih
    rcases cents_pair m with ⟨h1, h2⟩ | ⟨a, b, h1, h2, hab, hba⟩ <;>
      simp only [List.filterMap_cons, h1, h2, List.foldr_cons]
    · exact ⟨iha, ihb⟩
    · constructor
      · exact max_le_max hab iha
      · calc max b ((ms.filterMap centsOfRound).foldr max 0) ≤
              max (a + 1) ((ms.filterMap centsOfTrunc).foldr max 0 + 1) :=
            max_le_max hba ihb
          _ = max a ((ms.filterMap centsOfTrunc).foldr max 0) + 1 :=
            Nat.succ_max_succ ..

/-- The running-maximum loop equals a fold over the filtered match list. -/
theorem runMax_eq (ms : List (List Char)) :
    ∀ acc : ℕ, runMax ms acc = max acc ((ms.filterMap centsOfTrunc).foldr max 0) := by
  induction ms with
  | nil => intro acc; simp [runMax]
  | cons m ms ih =>
    intro acc
    cases hm : centsOfTrunc m with
    | none =>
      simp only [runMax, List.foldl_cons, hm]
      simpa only [List.filterMap_cons, hm] using ih acc
    | some c =>
      simp only [runMax, List.foldl_cons, hm, List.filterMap_cons, List.foldr_cons]
      have := ih (max acc c)
      simp only [runMax] at this
      rw [this, Nat.max_assoc]

/-- Folding the maximum distributes over list concatenation. -/
theorem foldr_max_append (l1 l2 : List ℕ) :
    (l1 ++ l2).foldr max 0 = max (l1.foldr max 0) (l2.foldr max 0) := by
  induction l1 with
  | nil => simp
  | cons x xs ih => simp [ih, Nat.max_assoc]

/-- The source's nested pattern loops compute exactly the maximum of the
truncating conversion over all matches of all five patterns. -/
theorem extract_eq_specTrunc (s : String) :
    extract_bounty_amount s = specTruncAmount s := by
  by_cases hs : s = ""
  · subst hs; decide
  · simp only [extract_bounty_amount, if_neg hs, specTruncAmount, allMatches]
    rw [runMax_eq, runMax_eq, runMax_eq, runMax_eq, runMax_eq]
    simp only [List.filterMap_append, foldr_max_append, Nat.zero_max, Nat.max_assoc]

/-- C2 amended: when no match of the text overflows the binary64
conversion, `extract_amount` returns the maximum over all pattern matches
of the truncating conversion `int(amount * 100)` (with 0 when no parseable
match and unparseable matches skipped), not of the claimed `round(amount *
100)`; the truncating result can fall exactly one cent below the rounding
formula and never exceeds it.  When some match overflows binary64 — a
matched amount of roughly 309 digits or more — `float` yields infinity and
`int(inf)` raises `OverflowError`, which the `except (ValueError,
TypeError)` does not catch: `extract_amount` raises instead of returning. -/
theorem C2_amended_trunc_bounds (s : String) :
    (amtOvfB s = false →
      extract_bounty_amountE s = .ok (specTruncAmount s) ∧
        extract_bounty_amount s = specTruncAmount s) ∧
    (amtOvfB s = true → extract_bounty_amountE s = .error .overflowError) ∧
    specTruncAmount s ≤ specRoundAmount s ∧
    specRoundAmount s ≤ specTruncAmount s + 1 :=
  ⟨fun h => ⟨extractE_ok h, extract_eq_specTrunc s⟩,
   fun h => extractE_err h,
   (fold_pair (allMatches (lowerList s.data))).1,
   (fold_pair (allMatches (lowerList s.data))).2⟩

set_option maxRecDepth 8000 in
/-- C2 witness: both sides of the amended dichotomy at concrete inputs — a
normal `$25.50` bounty text converts by truncation, and a 309-digit dollar
amount raises `OverflowError`. -/
theorem C2_witness :
    (amtOvfB "bounty: $25.50" = false ∧
      extract_bounty_amountE "bounty: $25.50" =
        .ok (specTruncAmount "bounty: $25.50") ∧
      extract_bounty_amount "bounty: $25.50" =
        specTruncAmount "bounty: $25.50") ∧
    (amtOvfB (String.mk ('$' :: List.replicate 309 '9')) = true ∧
      extract_bounty_amountE (String.mk ('$' :: List.replicate 309 '9')) =
        .error .overflowError) :=
  ⟨⟨by decide, (C2_amended_trunc_bounds "bounty: $25.50").1 (by decide)⟩,
   ⟨by decide,
    (C2_amended_trunc_bounds (String.mk ('$' :: List.replicate 309 '9'))).2.1
      (by decide)⟩⟩

/-- C7 amended: the budget check runs before each page and stops the crawl
with the service state untouched — zero further page requests — returning
exactly what was accumulated, whenever the recorded remaining count is
strictly below 10 (at exactly 10 a request is still issued, see the
counterexample). -/
theorem C7_amended_budget_gate (now m : ℤ) (p : ℕ) (st : SvcState) (db : DB)
    (acc : List IssueRec) (h : st.rateRemaining < 10) :
    crawlLoop now m (p + 1) st db acc = .ok (st, db, acc) := by
  simp [crawlLoop, h]

/-- C7 witness: a crawl with five pages of budget left but remaining = 5
issues no request (the oracle stream is returned untouched) and returns the
previously accumulated issue. -/
theorem C7_witness :
    crawlLoop 0 5000 5 ⟨5, [.noResponse]⟩ db0 [ex0] =
      .ok (⟨5, [.noResponse]⟩, db0, [ex0]) :=
  C7_amended_budget_gate 0 5000 4 ⟨5, [.noResponse]⟩ db0 [ex0] (by decide)

/-- C5 amended: the threshold check gates both paths — any item whose
extracted amount is strictly below `min_amount` is discarded entirely,
returning `None` with the store and service state unchanged, even when a
record with that external id already exists. -/
theorem C5_amended_threshold_gates_both (now m : ℤ) (gd : RawIssue)
    (gid : String) (st : SvcState) (db : DB) (n : ℕ)
    (h1 : gd.id? = some gid)
    (h2 : extract_bounty_amountE (gd.title?.getD "" ++ " " ++ effBody gd.body?) =
      .ok n)
    (h3 : (n : ℤ) < m) :
    processIssueFromSearch now m gd st db = .ok (st, db, none) := by
  simp only [processIssueFromSearch, h1, req_some, bind_ok_p, h2]
  rw [if_pos h3]

/-- C5 witness: a well-formed item whose $100 bounty is below a $999.99
minimum is skipped with the store unchanged. -/
theorem C5_witness :
    processIssueFromSearch 0 99999 payloadGood st0 db0 = .ok (st0, db0, none) :=
  C5_amended_threshold_gates_both 0 99999 payloadGood "1" st0 db0 10000
    (by decide) (by decide) (by decide)

/-- An item whose text mentions no money is discarded by any positive
threshold before the repository step, leaving the state untouched. -/
theorem cheap_process (now m : ℤ) (st : SvcState) (db : DB) (h : 0 < m) :
    processIssueFromSearch now m cheapItem st db = .ok (st, db, none) := by
  have h1 : cheapItem.id? = some "9" := by decide
  have h2 : extract_bounty_amountE
      (cheapItem.title?.getD "" ++ " " ++ effBody cheapItem.body?) = .ok 0 := by
    decide
  simp only [processIssueFromSearch, h1, req_some, bind_ok_p, h2]
  rw [if_pos (by exact_mod_cast h)]

/-- C10: every received response overwrites the stored remaining counter
with `int(headers.get("X-RateLimit-Remaining", 0))` — so an absent header
stores 0 — and consequently a single page response without the header makes
the next budget check fail: the crawl processes that one page and then stops
with the rest of the oracle stream untouched, returning the accumulated
list, for any remaining fuel. -/
theorem C10_rate_header_overwrite :
    (∀ (r : ℤ) (h : Option ℤ) (b : Option ApiBody) (rest : List ReqOutcome),
      makeRequest ⟨r, .response h b :: rest⟩ = (⟨h.getD 0, rest⟩, b)) ∧
    (∀ (now : ℤ) (p : ℕ) (rest : List ReqOutcome) (db : DB)
        (acc : List IssueRec) (r : ℤ), 10 ≤ r →
      crawlLoop now 5000 (p + 2)
        ⟨r, .response none (some (.searchResult (some [cheapItem]))) :: rest⟩
        db acc = .ok (⟨0, rest⟩, db, acc)) := by
  constructor
  · intro r h b rest; rfl
  · intro now p rest db acc r hr
    rw [crawlLoop]
    rw [if_neg (by simp; omega)]
    simp only [makeRequest]
    norm_num
    simp only [processItems, cheap_process now 5000 _ db (by omega), bind_ok_p]
    rw [crawlLoop]
    rw [if_pos (by norm_num)]

/-- C10 witness: the header-overwrite equation at a concrete response with
no rate-limit header, and the crawl halting after the header-less page. -/
theorem C10_witness :
    makeRequest ⟨77, [.response none none]⟩ = (⟨0, []⟩, none) ∧
    crawlLoop 3 5000 6
      ⟨40, [.response none (some (.searchResult (some [cheapItem])))]⟩
      db0 [] = .ok (⟨0, []⟩, db0, []) :=
  ⟨C10_rate_header_overwrite.1 77 none none [],
    C10_rate_header_overwrite.2 3 4 [] db0 [] 40 (by decide)⟩

/-- The commit uniqueness check decides exactly `List.Nodup`. -/
theorem namesNodup_iff (l : List String) : namesNodup l = true ↔ l.Nodup := by
  induction l with
  | nil => simp [namesNodup]
  | cons x xs ih => simp [namesNodup, ih, List.nodup_cons]

/-- If every raw comment of a batch is already committed, the comment loop
accumulates nothing. -/
theorem commentsGo_skip_all (iid : ℕ) (committed : List CommentRec) :
    ∀ (cs : List RawComment) (acc : List CommentRec),
      (∀ c ∈ cs, ∃ g, c.id? = some g ∧ g ∈ committed.map (·.github_id)) →
      commentsGo iid committed cs acc = .ok acc := by
  intro cs
  induction cs with
  | nil => intro acc _; rfl
  | cons c rest ih =>
    intro acc h
    obtain ⟨g, hg, hmem⟩ := h c (List.mem_cons_self c rest)
    have hany : (committed.any fun r => r.github_id == g) = true := by
      obtain ⟨r, hr, hge⟩ := List.mem_map.mp hmem
      exact List.any_eq_true.mpr ⟨r, hr, by simp [hge]⟩
    simp only [commentsGo, hg, req, bind_ok_p, hany, if_true]
    exact ih acc fun c hc => h c (List.mem_cons_of_mem _ hc)

/-- A successful comment loop only appends rows whose external ids were not
committed before the call. -/
theorem commentsGo_ext (iid : ℕ) (committed : List CommentRec) :
    ∀ (cs : List RawComment) (acc acc' : List CommentRec),
      commentsGo iid committed cs acc = .ok acc' →
      ∃ nw, acc' = acc ++ nw ∧
        ∀ r ∈ nw, r.github_id ∉ committed.map (·.github_id) := by
  intro cs
  induction cs with
  | nil =>
    intro acc acc' h
    injection h with h2
    exact ⟨[], by simp [h2.symm], by simp⟩
  | cons c rest ih =>
    intro acc acc' h
    simp only [commentsGo] at h
    cases hc : c.id? with
    | none => rw [hc] at h; simp only [req, bind_err_p] at h; cases h
    | some g =>
    rw [hc] at h
    simp only [req, bind_ok_p] at h
    by_cases hskip : (committed.any fun r => r.github_id == g) = true
    · rw [if_pos hskip] at h
      exact ih acc acc' h
    · rw [if_neg hskip] at h
      cases hcr : c.created_at? with
      | missing => rw [hcr] at h; simp only [reqTime, bind_err_p] at h; cases h
      | bad => rw [hcr] at h; simp only [reqTime, bind_err_p] at h; cases h
      | ts tc =>
      rw [hcr] at h
      simp only [reqTime, bind_ok_p] at h
      cases hud : c.updated_at? with
      | missing => rw [hud] at h; simp only [reqTime, bind_err_p] at h; cases h
      | bad => rw [hud] at h; simp only [reqTime, bind_err_p] at h; cases h
      | ts tu =>
      rw [hud] at h
      simp only [reqTime, bind_ok_p] at h
      cases hh : c.html_url? with
      | none => rw [hh] at h; simp only [req, bind_err_p] at h; cases h
      | some hu =>
      rw [hh] at h
      simp only [req, bind_ok_p] at h
      cases hus : c.user? with
      | none => rw [hus] at h; simp only [req, bind_err_p] at h; cases h
      | some usr =>
      rw [hus] at h
      simp only [req, bind_ok_p] at h
      obtain ⟨nw2, he, hp⟩ := ih _ _ h
      refine ⟨⟨g, iid, c.body?.getD "", hu, usr.1, usr.2, c.author_association?,
        tc, tu⟩ :: nw2, by simp [he], ?_⟩
      intro r hr
      rcases List.mem_cons.mp hr with rfl | hr2
      · intro hmem
        obtain ⟨cr, hcr2, hge⟩ := List.mem_map.mp hmem
        exact hskip (List.any_eq_true.mpr ⟨cr, hcr2, by simp [hge]⟩)
      · exact hp r hr2

/-- C9 amended: comment sync skips every raw comment whose external id is
already stored and returns an empty list with the store unchanged when the
whole batch is already present; in general the returned batch contains only
ids absent from the store before the call, the store is either unchanged
(rolled-back commit) or extended by exactly the returned batch, and
uniqueness of stored external ids is preserved — but the returned batch is
what the call *attempted* to insert, which a failed commit leaves
unpersisted (see the counterexample). -/
theorem C9_amended_comment_sync :
    (∀ (iid : ℕ) (r : ℤ) (hh : Option ℤ) (cs : List RawComment)
        (rest : List ReqOutcome) (db : DB),
      (∀ c ∈ cs, ∃ g, c.id? = some g ∧ g ∈ db.commentsT.map (·.github_id)) →
      fetchIssueComments iid ⟨r, .response hh (some (.commentsData cs)) :: rest⟩ db =
        .ok (⟨hh.getD 0, rest⟩, db, [])) ∧
    (∀ (iid : ℕ) (st st' : SvcState) (db db' : DB) (new : List CommentRec),
      fetchIssueComments iid st db = .ok (st', db', new) →
      (∀ c ∈ new, c.github_id ∉ db.commentsT.map (·.github_id)) ∧
      (db' = db ∨ db'.commentsT = db.commentsT ++ new) ∧
      ((db.commentsT.map (·.github_id)).Nodup →
        (db'.commentsT.map (·.github_id)).Nodup)) := by
  constructor
  · intro iid r hh cs rest db hall
    simp only [fetchIssueComments, makeRequest]
    cases hemp : cs.isEmpty
    · simp only [Bool.false_eq_true, if_false]
      rw [commentsGo_skip_all iid db.commentsT cs [] hall]
      simp [namesNodup]
    · simp
  · intro iid st st' db db' new h
    simp only [fetchIssueComments] at h
    cases hb : (makeRequest st).2 with
    | none =>
      rw [hb] at h
      simp only [Except.ok.injEq, Prod.mk.injEq] at h
      obtain ⟨-, rfl, rfl⟩ := h
      exact ⟨by simp, Or.inl rfl, fun hn => hn⟩
    | some b =>
      rw [hb] at h
      match b with
      | .searchResult it => simp only [] at h; cases h
      | .repoData rd => simp only [] at h; cases h
      | .commentsData cs =>
        simp only [] at h
        cases hemp : cs.isEmpty
        · rw [hemp] at h
          simp only [Bool.false_eq_true, if_false] at h
          cases hgo : commentsGo iid db.commentsT cs [] with
          | error e => rw [hgo] at h; cases h
          | ok acc =>
            rw [hgo] at h
            simp only [] at h
            obtain ⟨nw, hae, hp⟩ := commentsGo_ext iid db.commentsT cs [] acc hgo
            simp only [List.nil_append] at hae
            subst hae
            by_cases hnd : namesNodup (acc.map (·.github_id)) = true
            · rw [if_pos hnd] at h
              simp only [Except.ok.injEq, Prod.mk.injEq] at h
              obtain ⟨-, rfl, rfl⟩ := h
              refine ⟨hp, Or.inr rfl, ?_⟩
              intro hold
              simp only [List.map_append]
              rw [List.nodup_append]
              refine ⟨hold, (namesNodup_iff _).mp hnd, ?_⟩
              intro a ha hmem
              obtain ⟨r2, hr2, hge⟩ := List.mem_map.mp hmem
              exact hp r2 hr2 (hge ▸ ha)
            · rw [if_neg hnd] at h
              simp only [Except.ok.injEq, Prod.mk.injEq] at h
              obtain ⟨-, rfl, rfl⟩ := h
              exact ⟨hp, Or.inl rfl, fun hn => hn⟩
        · rw [hemp] at h
          simp only [if_true] at h
          simp only [Except.ok.injEq, Prod.mk.injEq] at h
          obtain ⟨-, rfl, rfl⟩ := h
          exact ⟨by simp, Or.inl rfl, fun hn => hn⟩

/-- C9 witness: re-syncing an issue whose single upstream comment is already
stored returns the empty list with the store unchanged, and the general
characterization applied to that same successful call. -/
theorem C9_witness :
    fetchIssueComments 3 ⟨7, [.response (some 9) (some (.commentsData [rawCA]))]⟩
        ⟨[], [repo0], [], [crecA]⟩ =
      .ok (⟨9, []⟩, ⟨[], [repo0], [], [crecA]⟩, []) ∧
    ((∀ c ∈ ([] : List CommentRec),
        c.github_id ∉ (⟨[], [repo0], [], [crecA]⟩ : DB).commentsT.map (·.github_id)) ∧
      ((⟨[], [repo0], [], [crecA]⟩ : DB) = ⟨[], [repo0], [], [crecA]⟩ ∨
        (⟨[], [repo0], [], [crecA]⟩ : DB).commentsT =
          (⟨[], [repo0], [], [crecA]⟩ : DB).commentsT ++ []) ∧
      (((⟨[], [repo0], [], [crecA]⟩ : DB).commentsT.map (·.github_id)).Nodup →
        ((⟨[], [repo0], [], [crecA]⟩ : DB).commentsT.map (·.github_id)).Nodup)) := by
  have h1 := C9_amended_comment_sync.1 3 7 (some 9) [rawCA] []
    ⟨[], [repo0], [], [crecA]⟩
    (by intro c hc; refine ⟨"a", ?_, ?_⟩ <;> simp_all [rawCA, crecA])
  exact ⟨h1, C9_amended_comment_sync.2 3 _ _ _ _ _ h1⟩


theorem obind_some {α β : Type} (a : α) (k : α → Option β) :
    (do let x ← some a; k x) = k a := rfl

theorem obind_none {α β : Type} (k : α → Option β) :
    (do let x ← (none : Option α); k x) = (none : Option β) := rfl

theorem makeRequest_suffix (st : SvcState) :
    (makeRequest st).1.stream <:+ st.stream := by
  rcases st with ⟨r, _ | ⟨o, rest⟩⟩
  · exact List.suffix_refl _
  · cases o <;> exact List.suffix_cons _ _

theorem wfStreamB_suffix {l l' : List ReqOutcome} (hsub : l' <:+ l)
    (hwf : wfStreamB l = true) : wfStreamB l' = true := by
  simp only [wfStreamB, List.all_eq_true] at hwf ⊢
  exact fun o ho => hwf o (hsub.subset ho)

theorem isStale_self (now : ℤ) : isStale now (some now) = false := by
  simp only [isStale, sub_self]
  decide

theorem buildRepo_fresh {now : ℤ} {o n : String} {rd : RawRepo} {k : ℕ}
    {rrec : RepoRec} (h : buildRepo now o n rd k = some rrec) :
    rrec.last_fetched_at = some now := by
  simp only [buildRepo] at h
  rcases h1 : rd.created_at? with _ | _ | tc <;> (try rw [h1] at h) <;>
    rcases h2 : rd.updated_at? with _ | _ | tu <;> (try rw [h2] at h) <;>
      rcases h3 : rd.pushed_at? with _ | _ | tp <;> (try rw [h3] at h) <;>
        rcases h4 : rd.id? with _ | g1 <;> (try rw [h4] at h) <;>
          rcases h5 : rd.html_url? with _ | g2 <;> (try rw [h5] at h) <;>
            rcases h6 : rd.clone_url? with _ | g3 <;> (try rw [h6] at h) <;>
              rcases h7 : rd.ssh_url? with _ | g4 <;> (try rw [h7] at h) <;>
                (try simp only [obind_some, obind_none] at h) <;>
                first
                  | (injection h with hx
                     subst hx
                     rfl)
                  | injection h

theorem freshReposB_mem {now : ℤ} {db : DB} {r : RepoRec}
    (hf : freshReposB now db = true) (hr : r ∈ db.repos) :
    isStale now r.last_fetched_at = false := by
  simp only [freshReposB, List.all_eq_true] at hf
  have := hf r hr
  simpa using this

theorem getOrCreate_fresh {now : ℤ} (o n : String) (st : SvcState) (db : DB)
    (hfresh : freshReposB now db = true) :
    ∃ st' db' rep, getOrCreateRepository now o n st db = .ok (st', db', rep) ∧
      freshReposB now db' = true ∧ st'.stream <:+ st.stream ∧
      db'.issues = db.issues ∧ db'.labelsT = db.labelsT := by
  simp only [getOrCreateRepository]
  cases hf : db.repos.find? (fun r => r.full_name == o ++ "/" ++ n) with
  | some r =>
    have hst : isStale now r.last_fetched_at = false :=
      freshReposB_mem hfresh (List.mem_of_find?_eq_some hf)
    simp only []
    rw [hst]
    exact ⟨st, db, some r, by simp, hfresh, List.suffix_refl _, rfl, rfl⟩
  | none =>
    rcases hmr : makeRequest st with ⟨st2, body⟩
    have hsuf : st2.stream <:+ st.stream := by
      have := makeRequest_suffix st
      rw [hmr] at this
      exact this
    simp only []
    cases body with
    | none => exact ⟨st2, db, none, rfl, hfresh, hsuf, rfl, rfl⟩
    | some b =>
      match b with
      | .searchResult it => exact ⟨st2, db, none, rfl, hfresh, hsuf, rfl, rfl⟩
      | .commentsData cs => exact ⟨st2, db, none, rfl, hfresh, hsuf, rfl, rfl⟩
      | .repoData rd =>
        simp only []
        cases hbr : buildRepo now o n rd db.repos.length with
        | none => exact ⟨st2, db, none, rfl, hfresh, hsuf, rfl, rfl⟩
        | some rrec =>
          refine ⟨st2, { db with repos := db.repos ++ [rrec] }, some rrec, rfl,
            ?_, hsuf, rfl, rfl⟩
          simp only [freshReposB, List.all_append, Bool.and_eq_true]
          refine ⟨hfresh, ?_⟩
          simp [buildRepo_fresh hbr, isStale_self]



theorem wfItemB_parts {gd : RawIssue} (h : wfItemB gd = true) :
    (∃ gid, gd.id? = some gid) ∧ (∃ v, gd.number? = some v) ∧
      (∃ v, gd.html_url? = some v) ∧ (∃ v, gd.url? = some v) ∧
      (∃ v, gd.user? = some v) ∧ (∃ t, gd.created_at? = .ts t) ∧
      (∃ t, gd.updated_at? = .ts t) ∧ gd.closed_at? ≠ .bad ∧
      amtOvfB (gd.title?.getD "" ++ " " ++ effBody gd.body?) = false := by
  simp only [wfItemB, Bool.and_eq_true] at h
  obtain ⟨⟨⟨⟨⟨⟨⟨⟨h1, h2⟩, h3⟩, h4⟩, h5⟩, h6⟩, h7⟩, h8⟩, h9⟩ := h
  refine ⟨Option.isSome_iff_exists.mp h1, Option.isSome_iff_exists.mp h2,
    Option.isSome_iff_exists.mp h3, Option.isSome_iff_exists.mp h4,
    Option.isSome_iff_exists.mp h5, ?_, ?_, ?_, by simpa using h9⟩
  · rcases hc : gd.created_at? with _ | _ | t <;> rw [hc] at h6 <;>
      first
        | exact ⟨t, rfl⟩
        | cases h6
  · rcases hc : gd.updated_at? with _ | _ | t <;> rw [hc] at h7 <;>
      first
        | exact ⟨t, rfl⟩
        | cases h7
  · rcases hc : gd.closed_at? with _ | _ | t <;> rw [hc] at h8 <;> simp_all

theorem process_absorbs (now m : ℤ) (gd : RawIssue) (st : SvcState) (db : DB)
    (hwf : wfItemB gd = true) (hfresh : freshReposB now db = true) :
    ∃ st' db' r, processIssueFromSearch now m gd st db = .ok (st', db', r) ∧
      freshReposB now db' = true ∧ st'.stream <:+ st.stream := by
  obtain ⟨⟨gid, hgid⟩, ⟨num, hnum⟩, ⟨hu, hhtml⟩, ⟨au, hurl⟩, ⟨usr, huser⟩,
    ⟨tc, hcr⟩, ⟨tu, hud⟩, hcl, hovf⟩ := wfItemB_parts hwf
  simp only [processIssueFromSearch, hgid, req_some, bind_ok_p]
  rw [extractE_ok hovf]
  simp only [bind_ok_p]
  by_cases hth : ((specTruncAmount (gd.title?.getD "" ++ " " ++ effBody gd.body?) : ℕ) : ℤ) < m
  · rw [if_pos hth]
    exact ⟨st, db, none, rfl, hfresh, List.suffix_refl _⟩
  rw [if_neg hth]
  rcases hsp : (splitSlash (gd.repository_url?.getD "")).reverse with _ | ⟨rname, _ | ⟨rowner, tl⟩⟩
  · exact ⟨st, db, none, rfl, hfresh, List.suffix_refl _⟩
  · exact ⟨st, db, none, rfl, hfresh, List.suffix_refl _⟩
  obtain ⟨st1, db1, rep, hrepo, hf1, hsuf1, hiss, hlab⟩ :=
    getOrCreate_fresh rowner rname st db hfresh
  simp only []
  rw [hrepo]
  simp only [bind_ok_p]
  cases rep with
  | none => exact ⟨st1, db1, none, rfl, hf1, hsuf1⟩
  | some repo =>
  simp only []
  cases hex : db.issues.find? (fun j => j.github_id == gid) with
  | some ex =>
    simp only []
    simp only [updateFromGithub, hud, updTime, bind_ok_p]
    rcases hcc : gd.closed_at? with _ | _ | t2
    · simp only [closedTime, bind_ok_p]
      split
      · exact ⟨st1, _, _, rfl, hf1, hsuf1⟩
      · exact ⟨st1, db1, none, rfl, hf1, hsuf1⟩
    · exact absurd hcc hcl
    · simp only [closedTime, bind_ok_p]
      split
      · exact ⟨st1, _, _, rfl, hf1, hsuf1⟩
      · exact ⟨st1, db1, none, rfl, hf1, hsuf1⟩
  | none =>
    simp only []
    simp only [hcr, hud, reqTime, bind_ok_p, hnum, hhtml, hurl, huser, req_some]
    split
    · exact ⟨st1, _, _, rfl, hf1, hsuf1⟩
    · exact ⟨st1, db1, none, rfl, hf1, hsuf1⟩



theorem items_absorb (now m : ℤ) :
    ∀ (items : List RawIssue) (st : SvcState) (db : DB) (acc : List IssueRec),
      items.all wfItemB = true → freshReposB now db = true →
      ∃ st' db' acc', processItems now m items st db acc = .ok (st', db', acc') ∧
        freshReposB now db' = true ∧ st'.stream <:+ st.stream := by
  intro items
  induction items with
  | nil =>
    intro st db acc _ hf
    exact ⟨st, db, acc, rfl, hf, List.suffix_refl _⟩
  | cons g gs ih =>
    intro st db acc hall hf
    rw [List.all_cons, Bool.and_eq_true] at hall
    obtain ⟨st1, db1, r, hp, hf1, hs1⟩ := process_absorbs now m g st db hall.1 hf
    simp only [processItems, hp, bind_ok_p]
    cases r with
    | none =>
      obtain ⟨st2, db2, acc2, hq, hf2, hs2⟩ := ih st1 db1 acc hall.2 hf1
      exact ⟨st2, db2, acc2, by simp [hq], hf2, hs2.trans hs1⟩
    | some i =>
      obtain ⟨st2, db2, acc2, hq, hf2, hs2⟩ := ih st1 db1 (acc ++ [i]) hall.2 hf1
      exact ⟨st2, db2, acc2, by simp [hq], hf2, hs2.trans hs1⟩

theorem crawl_absorbs (now m : ℤ) :
    ∀ (p : ℕ) (st : SvcState) (db : DB) (acc : List IssueRec),
      wfStreamB st.stream = true → freshReposB now db = true →
      ∃ out, crawlLoop now m p st db acc = .ok out := by
  intro p
  induction p with
  | zero => intro st db acc _ _; exact ⟨(st, db, acc), rfl⟩
  | succ p ih =>
    intro st db acc hwf hf
    rw [crawlLoop]
    by_cases hrl : st.rateRemaining < 10
    · rw [if_pos hrl]; exact ⟨_, rfl⟩
    rw [if_neg hrl]
    rcases st with ⟨r, _ | ⟨o, rest⟩⟩
    · exact ⟨_, rfl⟩
    · have hwfrest : wfStreamB rest = true := by
        rw [wfStreamB, List.all_cons, Bool.and_eq_true] at hwf
        exact hwf.2
      cases o with
      | noResponse => exact ⟨_, rfl⟩
      | response h b =>
        cases b with
        | none => exact ⟨_, rfl⟩
        | some ab =>
          match ab with
          | .repoData rd => exact ⟨_, rfl⟩
          | .commentsData cs => exact ⟨_, rfl⟩
          | .searchResult none => exact ⟨_, rfl⟩
          | .searchResult (some items) =>
            have hitems : items.all wfItemB = true := by
              rw [wfStreamB, List.all_cons, Bool.and_eq_true] at hwf
              have := hwf.1
              simpa [wfOutcomeB] using this
            simp only [makeRequest]
            cases hemp : items.isEmpty
            · obtain ⟨st2, db2, acc2, hq, hf2, hs2⟩ :=
                items_absorb now m items ⟨h.getD 0, rest⟩ db acc hitems hf
              simp only [Bool.false_eq_true, if_false, hq, bind_ok_p]
              have hwf2 : wfStreamB st2.stream = true := wfStreamB_suffix hs2 hwfrest
              obtain ⟨out, hout⟩ := ih st2 db2 acc2 hwf2 hf2
              exact ⟨out, by simp [hout]⟩
            · exact ⟨(⟨h.getD 0, rest⟩, db, acc), by simp⟩

/-- C4 amended: the crawl absorbs transport-level failures — a failed page
request ends the run normally, returning the accumulated list with the rest
of the oracle stream untouched — and item-level repository-fetch and commit
failures become "no result for this item"; a crawl over well-formed item
payloads (required keys present, parseable required timestamps, and no
bounty match overflowing binary64) against a store with no stale repository
never raises.  But (see the counterexample) an item with a missing required
field or an unparseable timestamp raises `KeyError`/`ValueError` out of
`search_bounty_issues`, a bounty amount of roughly 309 digits or more
raises `OverflowError` (uncaught by `except (ValueError, TypeError)`), and
a stale-repository refresh raises `AttributeError`, so absorption holds
only under these provisos rather than for every input. -/
theorem C4_amended_absorption :
    (∀ (now m : ℤ) (p : ℕ) (st : SvcState) (db : DB),
      wfStreamB st.stream = true → freshReposB now db = true →
      ∃ out, searchBountyIssues now m p st db = .ok out) ∧
    (∀ (now m : ℤ) (p : ℕ) (r : ℤ) (rest : List ReqOutcome) (db : DB)
        (acc : List IssueRec), 10 ≤ r →
      crawlLoop now m (p + 1) ⟨r, .noResponse :: rest⟩ db acc =
        .ok (⟨r, rest⟩, db, acc)) := by
  constructor
  · intro now m p st db hwf hf
    exact crawl_absorbs now m p st db [] hwf hf
  · intro now m p r rest db acc hr
    rw [crawlLoop]
    rw [if_neg (by simp; omega)]
    rfl

theorem C4_witness :
    (∃ out, searchBountyIssues 0 5000 3
      ⟨5000, [.response (some 50) (some (.searchResult (some [payloadGood])))]⟩
      db0 = .ok out) ∧
    crawlLoop 0 5000 1 ⟨11, [.noResponse]⟩ db0 [] = .ok (⟨11, []⟩, db0, []) :=
  ⟨C4_amended_absorption.1 0 5000 3
      ⟨5000, [.response (some 50) (some (.searchResult (some [payloadGood])))]⟩
      db0 (by decide) (by decide),
    C4_amended_absorption.2 0 5000 0 11 [] db0 [] (by decide)⟩



/-- C3 witness: a concrete successful create-path upsert; the returned row
satisfies the invariant and is stored. -/
theorem C3_witness :
    issueGood.has_bounty = decide (0 < issueGood.bounty_amount) ∧
      issueGood ∈ dbGood.issues :=
  C3_has_bounty_invariant 0 5000 payloadGood st0 st0 db0 dbGood issueGood
    (by decide)

theorem opt_getD_idem {α : Type} (o : Option α) (d : α) :
    o.getD (o.getD d) = o.getD d := by cases o <;> rfl

theorem find?_none_append {α : Type} {l₁ l₂ : List α} {p : α → Bool}
    (h : l₁.find? p = none) : (l₁ ++ l₂).find? p = l₂.find? p := by
  induction l₁ with
  | nil => rfl
  | cons x xs ih =>
    rw [List.find?_cons] at h
    cases hx : p x
    · rw [List.cons_append, List.find?_cons, hx]
      rw [hx] at h
      exact ih h
    · rw [hx] at h; cases h

theorem find?_replace {l : List IssueRec} {a r : IssueRec}
    (h : l.find? (fun i => i.github_id == r.github_id) = some a) :
    (l.map fun i => if i.github_id == r.github_id then r else i).find?
      (fun i => i.github_id == r.github_id) = some r := by
  induction l with
  | nil => cases h
  | cons x xs ih =>
    rw [List.find?_cons] at h
    cases hx : (x.github_id == r.github_id)
    · rw [hx] at h
      simp only [List.map_cons, hx, Bool.false_eq_true, if_false, List.find?_cons, hx]
      exact ih h
    · simp only [List.map_cons, hx, if_true, List.find?_cons]
      have : (r.github_id == r.github_id) = true := by simp
      rw [this]

theorem pl_mem_att (committed : List LabelRec) :
    ∀ (ls : List RawLabel) (att : List String) (pend : List LabelRec)
      {x : String}, x ∈ att → x ∈ (processLabelsGo committed ls att pend).1 := by
  intro ls
  induction ls with
  | nil => intro att pend x hx; exact hx
  | cons l rest ih =>
    intro att pend x hx
    simp only [processLabelsGo]
    cases committed.find? (fun lr => lr.name == lowerStr (l.name?.getD "")) with
    | some lr =>
      by_cases hc : att.contains (lowerStr (l.name?.getD "")) = true
      · rw [if_pos hc]; exact ih att pend hx
      · rw [if_neg hc]; exact ih _ pend (List.mem_append_left _ hx)
    | none => exact ih _ _ (List.mem_append_left _ hx)

theorem pl_mem_pend (committed : List LabelRec) :
    ∀ (ls : List RawLabel) (att : List String) (pend : List LabelRec)
      {lr : LabelRec}, lr ∈ pend → lr ∈ (processLabelsGo committed ls att pend).2 := by
  intro ls
  induction ls with
  | nil => intro att pend lr hx; exact hx
  | cons l rest ih =>
    intro att pend lr hx
    simp only [processLabelsGo]
    cases committed.find? (fun q => q.name == lowerStr (l.name?.getD "")) with
    | some q =>
      by_cases hc : att.contains (lowerStr (l.name?.getD "")) = true
      · rw [if_pos hc]; exact ih att pend hx
      · rw [if_neg hc]; exact ih _ pend hx
    | none => exact ih _ _ (List.mem_append_left _ hx)

theorem pl_covers (committed : List LabelRec) :
    ∀ (ls : List RawLabel) (att : List String) (pend : List LabelRec)
      (raw : RawLabel), raw ∈ ls →
      lname raw ∈ (processLabelsGo committed ls att pend).1 ∧
        ((∃ lr ∈ committed, lr.name = lname raw) ∨
          ∃ lr ∈ (processLabelsGo committed ls att pend).2, lr.name = lname raw) := by
  intro ls
  induction ls with
  | nil => intro att pend raw hraw; cases hraw
  | cons l rest ih =>
    intro att pend raw hraw
    rcases List.mem_cons.mp hraw with rfl | hmem
    · simp only [processLabelsGo]
      cases hf : committed.find? (fun q => q.name == lowerStr (raw.name?.getD "")) with
      | some q =>
        have hq : q.name = lname raw := by
          have := List.find?_some hf
          rwa [beq_iff_eq] at this
        by_cases hc : att.contains (lowerStr (raw.name?.getD "")) = true
        · rw [if_pos hc]
          refine ⟨pl_mem_att committed rest att pend (List.elem_iff.mp hc), ?_⟩
          exact Or.inl ⟨q, List.mem_of_find?_eq_some hf, hq⟩
        · rw [if_neg hc]
          refine ⟨pl_mem_att committed rest _ pend
            (List.mem_append_right _ (List.mem_singleton_self _)), ?_⟩
          exact Or.inl ⟨q, List.mem_of_find?_eq_some hf, hq⟩
      | none =>
        refine ⟨pl_mem_att committed rest _ _
          (List.mem_append_right _ (List.mem_singleton_self _)), ?_⟩
        refine Or.inr ⟨⟨lname raw, "#" ++ raw.color?.getD "cccccc", raw.description?⟩,
          pl_mem_pend committed rest _ _
            (List.mem_append_right _ (List.mem_singleton_self _)), rfl⟩
    · simp only [processLabelsGo]
      cases committed.find? (fun q => q.name == lowerStr (l.name?.getD "")) with
      | some q =>
        by_cases hc : att.contains (lowerStr (l.name?.getD "")) = true
        · rw [if_pos hc]; exact ih att pend raw hmem
        · rw [if_neg hc]; exact ih _ pend raw hmem
      | none => exact ih _ _ raw hmem

theorem pl_fixed (committed : List LabelRec) :
    ∀ (ls : List RawLabel) (att : List String) (pend : List LabelRec),
      (∀ raw ∈ ls, lname raw ∈ att ∧ ∃ lr ∈ committed, lr.name = lname raw) →
      processLabelsGo committed ls att pend = (att, pend) := by
  intro ls
  induction ls with
  | nil => intro att pend _; rfl
  | cons l rest ih =>
    intro att pend h
    obtain ⟨hmem, lr, hlr, hname⟩ := h l (List.mem_cons_self l rest)
    simp only [processLabelsGo]
    have hf : (committed.find? fun q => q.name == lname l).isSome := by
      rw [List.find?_isSome]
      exact ⟨lr, hlr, by simp [hname]⟩
    cases hfe : committed.find? (fun q => q.name == lname l) with
    | none => rw [hfe] at hf; cases hf
    | some q =>
      simp only [lname] at hfe
      rw [hfe]
      have hc : att.contains (lowerStr (l.name?.getD "")) = true :=
        List.elem_iff.mpr hmem
      rw [if_pos hc]
      exact ih att pend fun raw hraw => h raw (List.mem_cons_of_mem _ hraw)


/-- When every field assignment of `update_from_github` would write back the
value the record already holds, the update is a pure freshness bump. -/
theorem applyUpdate_fix (now2 : ℤ) (j : IssueRec) (gd : RawIssue) (gu : ℤ)
    (gc : Option ℤ)
    (ht : gd.title?.getD j.title = j.title)
    (hbo : (match gd.body? with
      | JBody.missing => j.body
      | JBody.null => none
      | JBody.str s => some s) = j.body)
    (hso : (if gd.state? == some "closed" then IssueStatus.closed
      else IssueStatus.opened) = j.status)
    (hcm : gd.comments?.getD 0 = j.comments_count)
    (hgu : gu = j.github_updated_at) (hgc : gc = j.github_closed_at) :
    applyUpdate now2 j gd gu gc =
      { j with fetch_count := j.fetch_count + 1, last_fetched_at := some now2 } := by
  simp only [applyUpdate]
  rw [ht, hbo, hso, hcm, hgu, hgc]

/-- Replaying `update_from_github` on a record that already carries the
result of a first successful run only bumps the freshness counters. -/
theorem update_second {now : ℤ} (now2 : ℤ) {ex ex₁ : IssueRec} {gd : RawIssue}
    (h : updateFromGithub now ex gd = .ok ex₁) (j : IssueRec)
    (ht : j.title = ex₁.title) (hbo : j.body = ex₁.body)
    (hso : j.status = ex₁.status) (hcm : j.comments_count = ex₁.comments_count)
    (hgu : j.github_updated_at = ex₁.github_updated_at)
    (hgc : j.github_closed_at = ex₁.github_closed_at) :
    updateFromGithub now2 j gd =
      .ok { j with fetch_count := j.fetch_count + 1,
                   last_fetched_at := some now2 } := by
  simp only [updateFromGithub] at h ⊢
  cases hu : gd.updated_at? with
  | bad => rw [hu] at h; simp only [updTime, bind_err_p] at h; cases h
  | missing =>
    rw [hu] at h
    simp only [updTime, bind_ok_p] at h ⊢
    cases hc : gd.closed_at? with
    | bad => rw [hc] at h; simp only [closedTime, bind_err_p] at h; cases h
    | missing =>
      rw [hc] at h
      simp only [closedTime, bind_ok_p] at h ⊢
      injection h with h2
      subst h2
      refine congrArg Except.ok (applyUpdate_fix now2 j gd j.github_updated_at
        j.github_closed_at ?_ ?_ ?_ ?_ rfl rfl)
      · rw [ht]; exact opt_getD_idem _ _
      · rcases hb2 : gd.body? with _ | _ | s
        · rfl
        · rw [hbo]; simp only [applyUpdate, hb2]
        · rw [hbo]; simp only [applyUpdate, hb2]
      · rw [hso]; rfl
      · rw [hcm]; rfl
    | ts t2 =>
      rw [hc] at h
      simp only [closedTime, bind_ok_p] at h ⊢
      injection h with h2
      subst h2
      refine congrArg Except.ok (applyUpdate_fix now2 j gd j.github_updated_at
        (some t2) ?_ ?_ ?_ ?_ rfl ?_)
      · rw [ht]; exact opt_getD_idem _ _
      · rcases hb2 : gd.body? with _ | _ | s
        · rfl
        · rw [hbo]; simp only [applyUpdate, hb2]
        · rw [hbo]; simp only [applyUpdate, hb2]
      · rw [hso]; rfl
      · rw [hcm]; rfl
      · rw [hgc]; rfl
  | ts t =>
    rw [hu] at h
    simp only [updTime, bind_ok_p] at h ⊢
    cases hc : gd.closed_at? with
    | bad => rw [hc] at h; simp only [closedTime, bind_err_p] at h; cases h
    | missing =>
      rw [hc] at h
      simp only [closedTime, bind_ok_p] at h ⊢
      injection h with h2
      subst h2
      refine congrArg Except.ok (applyUpdate_fix now2 j gd t
        j.github_closed_at ?_ ?_ ?_ ?_ ?_ rfl)
      · rw [ht]; exact opt_getD_idem _ _
      · rcases hb2 : gd.body? with _ | _ | s
        · rfl
        · rw [hbo]; simp only [applyUpdate, hb2]
        · rw [hbo]; simp only [applyUpdate, hb2]
      · rw [hso]; rfl
      · rw [hcm]; rfl
      · rw [hgu]; rfl
    | ts t2 =>
      rw [hc] at h
      simp only [closedTime, bind_ok_p] at h ⊢
      injection h with h2
      subst h2
      refine congrArg Except.ok (applyUpdate_fix now2 j gd t
        (some t2) ?_ ?_ ?_ ?_ ?_ ?_)
      · rw [ht]; exact opt_getD_idem _ _
      · rcases hb2 : gd.body? with _ | _ | s
        · rfl
        · rw [hbo]; simp only [applyUpdate, hb2]
        · rw [hbo]; simp only [applyUpdate, hb2]
      · rw [hso]; rfl
      · rw [hcm]; rfl
      · rw [hgu]; rfl
      · rw [hgc]; rfl


/-- The create path stores the row under the requested `owner/name` key. -/
theorem buildRepo_fullname {now : ℤ} {o n : String} {rd : RawRepo} {k : ℕ}
    {rrec : RepoRec} (h : buildRepo now o n rd k = some rrec) :
    rrec.full_name = o ++ "/" ++ n := by
  simp only [buildRepo] at h
  rcases h1 : rd.created_at? with _ | _ | tc <;> (try rw [h1] at h) <;>
    rcases h2 : rd.updated_at? with _ | _ | tu <;> (try rw [h2] at h) <;>
      rcases h3 : rd.pushed_at? with _ | _ | tp <;> (try rw [h3] at h) <;>
        rcases h4 : rd.id? with _ | g1 <;> (try rw [h4] at h) <;>
          rcases h5 : rd.html_url? with _ | g2 <;> (try rw [h5] at h) <;>
            rcases h6 : rd.clone_url? with _ | g3 <;> (try rw [h6] at h) <;>
              rcases h7 : rd.ssh_url? with _ | g4 <;> (try rw [h7] at h) <;>
                (try simp only [obind_some, obind_none] at h) <;>
                first
                  | (injection h with hx
                     subst hx
                     rfl)
                  | injection h

/-- After a first `get_or_create_repository` call returned a repository on a
store with only fresh rows, the resulting store resolves the same
`owner/name` key to a row that is itself still fresh. -/
theorem getOrCreate_found_after {now : ℤ} {o n : String} {st st1 : SvcState}
    {db db1 : DB} {repo : RepoRec}
    (hfresh : freshReposB now db = true)
    (h : getOrCreateRepository now o n st db = .ok (st1, db1, some repo)) :
    ∃ r₂, db1.repos.find? (fun r => r.full_name == o ++ "/" ++ n) = some r₂ ∧
      isStale now r₂.last_fetched_at = false := by
  simp only [getOrCreateRepository] at h
  cases hf : db.repos.find? (fun r => r.full_name == o ++ "/" ++ n) with
  | some r =>
    rw [hf] at h
    simp only [] at h
    have hns : isStale now r.last_fetched_at = false :=
      freshReposB_mem hfresh (List.mem_of_find?_eq_some hf)
    rw [hns] at h
    simp only [Bool.false_eq_true, if_false, Except.ok.injEq,
      Prod.mk.injEq, Option.some.injEq] at h
    obtain ⟨-, rfl, rfl⟩ := h
    exact ⟨r, hf, hns⟩
  | none =>
    rw [hf] at h
    simp only [] at h
    cases hb : (makeRequest st).2 with
    | none =>
      rw [hb] at h
      simp only [Except.ok.injEq, Prod.mk.injEq] at h
      obtain ⟨-, -, h3⟩ := h
      cases h3
    | some b =>
      rw [hb] at h
      match b with
      | .searchResult it =>
        simp only [Except.ok.injEq, Prod.mk.injEq] at h
        obtain ⟨-, -, h3⟩ := h
        cases h3
      | .commentsData cs =>
        simp only [Except.ok.injEq, Prod.mk.injEq] at h
        obtain ⟨-, -, h3⟩ := h
        cases h3
      | .repoData rd =>
        simp only [] at h
        cases hbr : buildRepo now o n rd db.repos.length with
        | none =>
          rw [hbr] at h
          simp only [Except.ok.injEq, Prod.mk.injEq] at h
          obtain ⟨-, -, h3⟩ := h
          cases h3
        | some rrec =>
          rw [hbr] at h
          simp only [Except.ok.injEq, Prod.mk.injEq, Option.some.injEq] at h
          obtain ⟨-, rfl, rfl⟩ := h
          refine ⟨rrec, ?_, ?_⟩
          · rw [find?_none_append hf, List.find?_cons]
            have : (rrec.full_name == o ++ "/" ++ n) = true := by
              rw [beq_iff_eq]
              exact buildRepo_fullname hbr
            rw [this]
          · rw [buildRepo_fresh hbr]
            exact isStale_self now


/-- Replaying the upsert on a store that already holds the exact result of a
first run: given that every recomputed field agrees with the stored row, the
second call succeeds, returns the stored row with only its freshness
counters bumped, and neither inserts an issue row nor a label row. -/
theorem second_run (now m : ℤ) (gd : RawIssue) (st₁ : SvcState) (db₁ : DB)
    (gid : String) (i₁ : IssueRec) (rname rowner : String) (tl : List String)
    (r₂ : RepoRec) (n : ℕ)
    (hid : gd.id? = some gid)
    (hamt : extract_bounty_amountE
      (gd.title?.getD "" ++ " " ++ effBody gd.body?) = .ok n)
    (hth : ¬ (n : ℤ) < m)
    (hsp : (splitSlash (gd.repository_url?.getD "")).reverse =
      rname :: rowner :: tl)
    (hr : db₁.repos.find? (fun r => r.full_name == rowner ++ "/" ++ rname) =
      some r₂)
    (hns : isStale now r₂.last_fetched_at = false)
    (hex : db₁.issues.find? (fun j => j.github_id == gid) = some i₁)
    (hupd : updateFromGithub now i₁ gd =
      .ok { i₁ with fetch_count := i₁.fetch_count + 1,
                    last_fetched_at := some now })
    (hba : i₁.bounty_amount = n)
    (hhb : i₁.has_bounty = decide (0 < i₁.bounty_amount))
    (hbs : i₁.bounty_source =
      determine_bounty_source (gd.title?.getD "" ++ " " ++ effBody gd.body?))
    (hpl : processLabelsGo db₁.labelsT gd.labels i₁.labels [] =
      (i₁.labels, [])) :
    ∃ db₂, processIssueFromSearch now m gd st₁ db₁ =
        .ok (st₁, db₂, some { i₁ with fetch_count := i₁.fetch_count + 1,
                                      last_fetched_at := some now }) ∧
      db₂.issues.length = db₁.issues.length ∧ db₂.labelsT = db₁.labelsT := by
  have hg : getOrCreateRepository now rowner rname st₁ db₁ =
      .ok (st₁, db₁, some r₂) := by
    simp only [getOrCreateRepository]
    rw [hr]
    simp only []
    rw [hns]
    simp only [Bool.false_eq_true, if_false]
  simp only [processIssueFromSearch]
  rw [hid]
  simp only [req, bind_ok_p]
  rw [hamt]
  simp only [bind_ok_p]
  rw [if_neg hth, hsp]
  try simp only []
  rw [hg]
  simp only [bind_ok_p]
  rw [hex]
  try simp only []
  rw [hupd]
  simp only [bind_ok_p]
  try simp only []
  rw [← hba, ← hhb, ← hbs]
  rw [hpl]
  try simp only []
  have hnd : namesNodup (List.map (fun l => l.name) ([] : List LabelRec)) =
      true := rfl
  rw [if_pos hnd]
  exact ⟨_, rfl, by simp [replaceIssue], by simp⟩


/-- A row stored with an id is found again after replacing that id's row. -/
theorem find?_after_replace {l : List IssueRec} {ex r : IssueRec} {gid : String}
    (hex : l.find? (fun j => j.github_id == gid) = some ex)
    (hg : r.github_id = gid) :
    (l.map fun i => if i.github_id == r.github_id then r else i).find?
      (fun j => j.github_id == gid) = some r := by
  subst hg
  exact find?_replace hex

/-- A fresh row appended to a table that misses its id is found under it. -/
theorem find?_append_self {l : List IssueRec} {r : IssueRec} {gid : String}
    (hex : l.find? (fun j => j.github_id == gid) = none)
    (hg : r.github_id = gid) :
    (l ++ [r]).find? (fun j => j.github_id == gid) = some r := by
  subst hg
  rw [find?_none_append hex, List.find?_cons]
  have : (r.github_id == r.github_id) = true := by simp
  rw [this]

/-- C8 (amended): the upsert is idempotent up to freshness counters for a
payload whose `body` is not an explicit JSON `null` and whose `closed_at`
key is absent, against a store with no stale repository rows: after a first
successful run stored and returned `i₁`, re-running the identical payload
returns `i₁` with only `fetch_count` bumped and `last_fetched_at` renewed,
leaves the service state untouched, creates no duplicate issue row and
inserts no new label row (the returned record also carries `i₁`'s label
list unchanged).  The original claim is corrected by the two added payload
hypotheses: an explicit `null` body is re-read as `NULL` on the second run
(`get("body", self.body)` copies it) and a present `closed_at` is written
on update though the create path never stores it (see the
counterexample). -/
theorem C8_amended_idempotent (now m : ℤ) (gd : RawIssue) (st st₁ : SvcState)
    (db db₁ : DB) (i₁ : IssueRec)
    (hbody : gd.body? ≠ JBody.null) (hcl : gd.closed_at? = JTime.missing)
    (hfresh : freshReposB now db = true)
    (h : processIssueFromSearch now m gd st db = .ok (st₁, db₁, some i₁)) :
    ∃ db₂, processIssueFromSearch now m gd st₁ db₁ =
        .ok (st₁, db₂, some { i₁ with fetch_count := i₁.fetch_count + 1,
                                      last_fetched_at := some now }) ∧
      db₂.issues.length = db₁.issues.length ∧ db₂.labelsT = db₁.labelsT := by
  simp only [processIssueFromSearch] at h
  cases hid : gd.id? with
  | none => rw [hid] at h; simp only [req, bind_err_p] at h; cases h
  | some gid =>
  rw [hid] at h
  simp only [req, bind_ok_p] at h
  cases hamt : extract_bounty_amountE
      (gd.title?.getD "" ++ " " ++ effBody gd.body?) with
  | error e => rw [hamt] at h; simp only [bind_err_p] at h; cases h
  | ok n =>
  rw [hamt] at h
  simp only [bind_ok_p] at h
  by_cases hth : (n : ℤ) < m
  · rw [if_pos hth] at h; cases h
  rw [if_neg hth] at h
  rcases hsp : (splitSlash (gd.repository_url?.getD "")).reverse with
    _ | ⟨rname, _ | ⟨rowner, tl⟩⟩ <;> rw [hsp] at h
  · cases h
  · cases h
  simp only [] at h
  cases hrepo : getOrCreateRepository now rowner rname st db with
  | error e => rw [hrepo] at h; cases h
  | ok trip =>
  rw [hrepo] at h
  rcases trip with ⟨st', db', orep⟩
  simp only [bind_ok_p] at h
  obtain ⟨hkeep, hkeepL, -⟩ := getOrCreate_keeps hrepo
  cases orep with
  | none => simp only [] at h; cases h
  | some repo =>
  simp only [] at h
  obtain ⟨r₂, hr2, hns2⟩ := getOrCreate_found_after hfresh hrepo
  cases hex : db.issues.find? (fun j => j.github_id == gid) with
  | some ex =>
    rw [hex] at h
    simp only [] at h
    cases hup : updateFromGithub now ex gd with
    | error e => rw [hup] at h; simp only [bind_err_p] at h; cases h
    | ok ex₁ =>
    rw [hup] at h
    simp only [bind_ok_p] at h
    split at h
    · simp only [Except.ok.injEq, Prod.mk.injEq, Option.some.injEq] at h
      obtain ⟨hst1, hdb1, hi⟩ := h
      subst hst1
      have hgid_ex : ex.github_id = gid := by
        have := List.find?_some hex
        rwa [beq_iff_eq] at this
      have hex' : db'.issues.find? (fun j => j.github_id == gid) = some ex := by
        rw [hkeep]; exact hex
      have hrF : db₁.repos.find?
          (fun r => r.full_name == rowner ++ "/" ++ rname) = some r₂ := by
        rw [← hdb1]; exact hr2
      have hexF : db₁.issues.find? (fun j => j.github_id == gid) = some i₁ := by
        rw [← hi, ← hdb1]
        exact find?_after_replace hex' ((updateFromGithub_gid hup).trans hgid_ex)
      have hupdF : updateFromGithub now i₁ gd =
          .ok { i₁ with fetch_count := i₁.fetch_count + 1,
                        last_fetched_at := some now } := by
        rw [← hi]
        exact update_second now hup _ rfl rfl rfl rfl rfl rfl
      have hbaF : i₁.bounty_amount = n := by
        rw [← hi]
      have hhbF : i₁.has_bounty = decide (0 < i₁.bounty_amount) := by
        rw [← hi]
      have hbsF : i₁.bounty_source =
          determine_bounty_source (gd.title?.getD "" ++ " " ++ effBody gd.body?) := by
        rw [← hi]
      have hplF : processLabelsGo db₁.labelsT gd.labels i₁.labels [] =
          (i₁.labels, []) := by
        rw [← hi, ← hdb1]
        refine pl_fixed _ _ _ _ ?_
        intro raw hraw
        have hcv := pl_covers db'.labelsT gd.labels ex₁.labels [] raw hraw
        refine ⟨hcv.1, ?_⟩
        rcases hcv.2 with ⟨lr, hlr, hn⟩ | ⟨lr, hlr, hn⟩
        · exact ⟨lr, List.mem_append_left _ hlr, hn⟩
        · exact ⟨lr, List.mem_append_right _ hlr, hn⟩
      exact second_run now m gd st' db₁ gid i₁ rname rowner tl r₂ n hid hamt
        hth hsp hrF hns2 hexF hupdF hbaF hhbF hbsF hplF
    · cases h
  | none =>
    rw [hex] at h
    simp only [] at h
    cases hcr : gd.created_at? with
    | missing => rw [hcr] at h; simp only [reqTime, bind_err_p] at h; cases h
    | bad => rw [hcr] at h; simp only [reqTime, bind_err_p] at h; cases h
    | ts tc =>
    rw [hcr] at h
    simp only [reqTime, bind_ok_p] at h
    cases hud : gd.updated_at? with
    | missing => rw [hud] at h; simp only [reqTime, bind_err_p] at h; cases h
    | bad => rw [hud] at h; simp only [reqTime, bind_err_p] at h; cases h
    | ts tu =>
    rw [hud] at h
    simp only [reqTime, bind_ok_p] at h
    cases hnum : gd.number? with
    | none => rw [hnum] at h; simp only [req, bind_err_p] at h; cases h
    | some num =>
    rw [hnum] at h
    simp only [req, bind_ok_p] at h
    cases hhtml : gd.html_url? with
    | none => rw [hhtml] at h; simp only [req, bind_err_p] at h; cases h
    | some htmlu =>
    rw [hhtml] at h
    simp only [req, bind_ok_p] at h
    cases hurl : gd.url? with
    | none => rw [hurl] at h; simp only [req, bind_err_p] at h; cases h
    | some apiu =>
    rw [hurl] at h
    simp only [req, bind_ok_p] at h
    cases huser : gd.user? with
    | none => rw [huser] at h; simp only [req, bind_err_p] at h; cases h
    | some usr =>
    rw [huser] at h
    simp only [req, bind_ok_p] at h
    split at h
    · simp only [Except.ok.injEq, Prod.mk.injEq, Option.some.injEq] at h
      obtain ⟨hst1, hdb1, hi⟩ := h
      subst hst1
      have hex' : db'.issues.find? (fun j => j.github_id == gid) = none := by
        rw [hkeep]; exact hex
      have hrF : db₁.repos.find?
          (fun r => r.full_name == rowner ++ "/" ++ rname) = some r₂ := by
        rw [← hdb1]; exact hr2
      have hexF : db₁.issues.find? (fun j => j.github_id == gid) = some i₁ := by
        rw [← hi, ← hdb1]
        exact find?_append_self hex' rfl
      have hupdF : updateFromGithub now i₁ gd =
          .ok { i₁ with fetch_count := i₁.fetch_count + 1,
                        last_fetched_at := some now } := by
        rw [← hi]
        simp only [updateFromGithub]
        rw [hud]
        simp only [updTime, bind_ok_p]
        rw [hcl]
        simp only [closedTime, bind_ok_p]
        refine congrArg Except.ok
          (applyUpdate_fix now _ gd tu _ ?_ ?_ ?_ ?_ ?_ ?_)
        · exact opt_getD_idem _ _
        · rcases hb2 : gd.body? with _ | _ | s
          · rfl
          · exact absurd hb2 hbody
          · rfl
        · rfl
        · rfl
        · rfl
        · rfl
      have hbaF : i₁.bounty_amount = n := by
        rw [← hi]
      have hhbF : i₁.has_bounty = decide (0 < i₁.bounty_amount) := by
        rw [← hi]
      have hbsF : i₁.bounty_source =
          determine_bounty_source (gd.title?.getD "" ++ " " ++ effBody gd.body?) := by
        rw [← hi]
      have hplF : processLabelsGo db₁.labelsT gd.labels i₁.labels [] =
          (i₁.labels, []) := by
        rw [← hi, ← hdb1]
        refine pl_fixed _ _ _ _ ?_
        intro raw hraw
        have hcv := pl_covers db'.labelsT gd.labels [] [] raw hraw
        refine ⟨hcv.1, ?_⟩
        rcases hcv.2 with ⟨lr, hlr, hn⟩ | ⟨lr, hlr, hn⟩
        · exact ⟨lr, List.mem_append_left _ hlr, hn⟩
        · exact ⟨lr, List.mem_append_right _ hlr, hn⟩
      exact second_run now m gd st' db₁ gid i₁ rname rowner tl r₂ n hid hamt
        hth hsp hrF hns2 hexF hupdF hbaF hhbF hbsF hplF
    · cases h


/-- C8 witness: upserting `payloadGood` into the store that already holds
its first-run result returns the stored row with only the freshness
counters bumped, via the amended idempotence theorem with every hypothesis
checked on the concrete input. -/
theorem C8_witness :
    payloadGood.body? ≠ JBody.null ∧ payloadGood.closed_at? = JTime.missing ∧
    freshReposB 0 db0 = true ∧
    processIssueFromSearch 0 5000 payloadGood st0 db0 =
      .ok (st0, dbGood, some issueGood) ∧
    ∃ db₂, processIssueFromSearch 0 5000 payloadGood st0 dbGood =
        .ok (st0, db₂,
          some { issueGood with fetch_count := issueGood.fetch_count + 1,
                                last_fetched_at := some 0 }) ∧
      db₂.issues.length = dbGood.issues.length ∧ db₂.labelsT = dbGood.labelsT :=
  ⟨by decide, by decide, by decide, by decide,
    C8_amended_idempotent 0 5000 payloadGood st0 st0 db0 dbGood issueGood
      (by decide) (by decide) (by decide) (by decide)⟩

end BT
